import Mathlib

/-!
Verification of the Recommendarr taste-profiling and recommendation core.

This file is a shallow embedding, over exact rational arithmetic, of the
scoring logic in `backend/app/services/taste_profiler.py`,
`backend/app/services/recommender.py` and
`backend/app/services/explanations.py`. Python floats are modelled as
rationals (every float value is a rational, and the quantities involved stay
far from rounding ties), datetimes as integer epoch seconds, and SQL rows as
lists handed to the functions at the database boundary. The only
transcendental computation, the exponential temporal decay, is modelled over
the reals.
-/

namespace Recommendarr

/-- Clamp a score to the unit interval, as in `max(0.0, min(1.0, score))`. -/
def clamp01 (x : ℚ) : ℚ := max 0 (min 1 x)

/-- Round a rational to the nearest integer, ties to even, which is the
rounding mode of the Python builtin `round`. -/
def roundHalfEven (x : ℚ) : ℤ :=
  if x - ⌊x⌋ < 1/2 then ⌊x⌋
  else if 1/2 < x - ⌊x⌋ then ⌊x⌋ + 1
  else if ⌊x⌋ % 2 = 0 then ⌊x⌋ else ⌊x⌋ + 1

/-- Python `round(x, n)` on rationals: round `x` to `n` decimal places,
ties to even. -/
def pyRound (n : ℕ) (x : ℚ) : ℚ := (roundHalfEven (x * 10 ^ n) : ℚ) / 10 ^ n

/-- Maximum of a list of rationals with default `d` for the empty list,
as in Python `max(values) if values else d`. -/
def listMax (d : ℚ) : List ℚ → ℚ
  | [] => d
  | x :: xs => xs.foldl max x

/-- Association map from string keys to rational scores. Python dicts keep
insertion order; an association list models that exactly. -/
abbrev AMap := List (String × ℚ)

/-- Update of a `defaultdict(float)` entry: `m[k] += v`, creating the key
with initial value `0` when absent (so `k` is recorded even when `v = 0`). -/
def addVal : AMap → String → ℚ → AMap
  | [], k, v => [(k, v)]
  | p :: rest, k, v => if p.1 = k then (p.1, p.2 + v) :: rest else p :: addVal rest k v

/-- Dict lookup with default zero: `m.get(k, 0)`. -/
def getVal (m : AMap) (k : String) : ℚ :=
  ((m.find? (fun p => p.1 == k)).map Prod.snd).getD 0

/-- Whether a key is present: Python `k in m`. -/
def hasKey (m : AMap) (k : String) : Bool :=
  (m.find? (fun p => p.1 == k)).isSome

/-- In-place dict assignment `m[k] = v`; a no-op when the key is absent
(the source only assigns to keys it has just checked for membership). -/
def setVal : AMap → String → ℚ → AMap
  | [], _, _ => []
  | p :: rest, k, v => if p.1 = k then (k, v) :: rest else p :: setVal rest k v

/-- Values of the map, in order, as in `m.values()`. -/
def valsOf (m : AMap) : List ℚ := m.map Prod.snd

/-- Insert one element before the first list element `y` with `le x y`. -/
def insertLe {α : Type} (le : α → α → Bool) (x : α) : List α → List α
  | [] => [x]
  | y :: ys => if le x y then x :: y :: ys else y :: insertLe le x ys

/-- Stable sort by a boolean comparator (insertion sort). Python `sorted`
and `list.sort` are stable, and for a transitive total comparator a stable
sort is a unique function of its input, so this agrees with the source. -/
def sortByLe {α : Type} (le : α → α → Bool) : List α → List α
  | [] => []
  | x :: xs => insertLe le x (sortByLe le xs)

/-- A `watch_history` row (`app/models/tables.py`). `completion_pct` is
`Numeric(5,2)` and nullable, `user_rating` is `Numeric(3,1)` and nullable,
`watch_count` is a non-null integer, `created_at` is non-null (server
default) while `started_at` is nullable. Timestamps are epoch seconds. -/
structure WatchHistory where
  tmdbId : ℤ
  startedAt : Option ℤ
  createdAt : ℤ
  completionPct : Option ℚ
  watchCount : ℕ
  userRating : Option ℚ
deriving DecidableEq

/-- A `tmdb_cache` row, with the JSONB fields already decoded: `genres` as
the list the code extracts (`list(genres.values())` for a dict), `keywords`
as a string list, and `cast_crew` split into the director names (the crew
entries whose `job` is `Director`, in order) and the cast names in billing
order. -/
structure TmdbMeta where
  tmdbId : ℤ
  mediaType : String
  genres : List String
  keywords : List String
  directors : List String
  cast : List String
  voteAverage : Option ℚ
  year : Option ℤ
  originalLanguage : Option String
  embeddingId : Option String
deriving DecidableEq

/-- An `influence_overrides` row. `weight_modifier` is nullable
(`Numeric(3,2)`); the data model constrains the magnitude to `[0, 1]`. -/
structure Override where
  influenceType : String
  influenceKey : String
  action : String
  weightModifier : Option ℚ
deriving DecidableEq

/-- One element of the enriched history that `_get_enriched_history` returns,
paired with the temporal decay the code computes for it. In the source the
decay is `_temporal_decay(started_at or created_at)`, a float in `(0, 1]`
(see `temporalDecay` below, modelled over the reals); the aggregation treats
it as an opaque multiplier, so the embedding takes the per-watch decay as a
rational field, which covers every value the float computation can produce. -/
structure EnrichedWatch where
  history : WatchHistory
  tmdb : TmdbMeta
  decay : ℚ
deriving DecidableEq

/-- The anti-profile: genres and keywords the history indicates dislike for. -/
structure AntiProfile where
  genres : List String
  keywords : List String
deriving DecidableEq

/-- Profile statistics (the `domain` and `depth_months` echo fields are
omitted as pure request echoes). -/
structure ProfileStats where
  totalWatches : ℕ
  avgCompletion : ℚ
  totalSignalStrength : ℚ
deriving DecidableEq

/-- A built taste profile (`build_profile` return value, minus the raw
embedding which is handled by `buildTasteEmbedding`). -/
structure Profile where
  genreAffinities : AMap
  personnelAffinities : AMap
  keywordAffinities : AMap
  antiProfile : AntiProfile
  stats : ProfileStats
deriving DecidableEq

/-- The profile `_empty_profile` returns for a user with no history. -/
def emptyProfile : Profile :=
  { genreAffinities := []
    personnelAffinities := []
    keywordAffinities := []
    antiProfile := { genres := [], keywords := [] }
    stats := { totalWatches := 0, avgCompletion := 0, totalSignalStrength := 0 } }

/-- Signal strength of a single watch event (`TasteProfiler._compute_signal`).
The rating branch follows the Python truthiness test `if history.user_rating:`,
under which a missing rating and a stored rating of exactly 0 both skip the
rating bonus. The feedback argument is the `type` entry of the feedback dict
for this item (absent key modelled as `none`). -/
def computeSignal (h : WatchHistory) (fb : Option String) : ℚ :=
  let completion := h.completionPct.getD 0
  (if completion ≥ 85 then 5
   else if completion ≥ 40 then 2
   else if completion < 20 ∧ completion > 0 then -3
   else 0)
  + (if h.watchCount > 1 then 4 else 0)
  + (match h.userRating with
     | none => 0
     | some r => if r = 0 then 0 else if r ≥ 8 then 3 else if r ≤ 4 then -2 else 0)
  + (if fb = some "up" then 3
     else if fb = some "down" then -4
     else if fb = some "dismiss" then -1
     else 0)

/-- The running accumulator pools of `build_profile` (lines 97-106 of
`taste_profiler.py`); `genre_counts` is omitted because no output reads it. -/
structure Pools where
  genreScores : AMap
  personnelScores : AMap
  keywordScores : AMap
  antiGenres : AMap
  antiKeywords : AMap
  totalSignal : ℚ
  totalCompletion : ℚ

/-- The empty pools at the start of the aggregation pass. -/
def initPools : Pools :=
  { genreScores := [], personnelScores := [], keywordScores := []
    antiGenres := [], antiKeywords := [], totalSignal := 0, totalCompletion := 0 }

/-- One iteration of the `for watch in watches` aggregation loop of
`build_profile`: distribute the decay-weighted signal over the genres of the
item (positive signal into the affinity pool, otherwise its absolute value
into the anti pool), over the first 10 keywords at half weight, and over the
personnel (directors at full weight, first 3 billed cast at 0.3 weight). -/
def accumulateWatch (feedback : ℤ → Option String) (P : Pools) (w : EnrichedWatch) : Pools :=
  let s := computeSignal w.history (feedback w.tmdb.tmdbId) * w.decay
  let P1 := { P with totalSignal := P.totalSignal + |s|,
                     totalCompletion := P.totalCompletion + w.history.completionPct.getD 0 }
  let P2 :=
    if s > 0 then
      { P1 with genreScores := w.tmdb.genres.foldl (fun m g => addVal m g s) P1.genreScores }
    else
      { P1 with antiGenres := w.tmdb.genres.foldl (fun m g => addVal m g |s|) P1.antiGenres }
  let P3 :=
    if s > 0 then
      { P2 with keywordScores :=
          (w.tmdb.keywords.take 10).foldl (fun m k => addVal m k (s * (1/2))) P2.keywordScores }
    else
      { P2 with antiKeywords :=
          (w.tmdb.keywords.take 10).foldl (fun m k => addVal m k (|s| * (1/2))) P2.antiKeywords }
  let persDir := w.tmdb.directors.foldl (fun m n => addVal m n s) P3.personnelScores
  let persAll := (w.tmdb.cast.take 3).foldl (fun m n => addVal m n (s * (3/10))) persDir
  { P3 with personnelScores := persAll }

/-- The effective weight of an override: `float(override.weight_modifier or
0.3)`; both a missing and a zero modifier fall back to 0.3 because `0` is
falsy in Python. -/
def overrideWeight (o : Override) : ℚ :=
  match o.weightModifier with
  | some v => if v = 0 then 3/10 else v
  | none => 3/10

/-- One step of the override loop of `build_profile` (lines 164-175): an
override applies only when its type is `genre` and its key already has a
computed affinity entry. A missing or zero `weight_modifier` falls back to
the 0.3 default because the source uses `float(override.weight_modifier or
0.3)` and `0` is falsy in Python. -/
def applyOverride (m : AMap) (o : Override) : AMap :=
  if o.influenceType = "genre" ∧ hasKey m o.influenceKey then
    if o.action = "boost" then
      setVal m o.influenceKey (min 1 (getVal m o.influenceKey + overrideWeight o))
    else if o.action = "suppress" then
      setVal m o.influenceKey (max (-1) (getVal m o.influenceKey - overrideWeight o))
    else if o.action = "block" then setVal m o.influenceKey (-1)
    else m
  else m

/-- Descending-by-value comparator used for `sorted(..., key=lambda x: x[1],
reverse=True)`; ties keep original order under a stable sort, matching
Python. -/
def byValDesc (a b : String × ℚ) : Bool := decide (b.2 ≤ a.2)

/-- Descending-by-absolute-value comparator for
`sorted(..., key=lambda x: abs(x[1]), reverse=True)`. -/
def byAbsDesc (a b : String × ℚ) : Bool := decide (|b.2| ≤ |a.2|)

/-- The genre normalization denominator of `build_profile` (lines 153-154):
the maximum of the positive-pool maximum, the anti-pool maximum and 1.0. -/
def maxGenreOf (P : Pools) : ℚ :=
  max (listMax 1 (valsOf P.genreScores)) (max (listMax 1 (valsOf P.antiGenres)) 1)

/-- The key set `set(genre_scores) | set(anti_genres)` that `build_profile`
iterates. Python set order is unspecified; the final dict is re-sorted by
value, so the order only breaks ties, modelled as positive-pool keys
first. -/
def genreKeysOf (P : Pools) : List String :=
  P.genreScores.map Prod.fst ++
    (P.antiGenres.map Prod.fst).filter (fun g => ¬ (P.genreScores.map Prod.fst).contains g)

/-- The genre affinity map before overrides (lines 156-161):
`round((pos - neg) / max_genre, 3)` per key. -/
def genreAffPre (P : Pools) : AMap :=
  (genreKeysOf P).map (fun g =>
    (g, pyRound 3 ((getVal P.genreScores g - getVal P.antiGenres g) / maxGenreOf P)))

/-- Normalization and truncation shared by the personnel and keyword
affinities (lines 177-189): sort by absolute value descending, take the top
`n`, divide by the maximum absolute score and round to 3 decimals. -/
def topAffinities (n : ℕ) (m : AMap) : AMap :=
  ((sortByLe byAbsDesc m).take n).map
    (fun p => (p.1, pyRound 3 (p.2 / listMax 1 ((valsOf m).map (fun v => |v|)))))

/-- Anti-profile genres (line 193): keys whose final affinity is below
-0.3, computed after overrides. -/
def antiGenresOf (gAff : AMap) : List String :=
  (gAff.filter (fun p => decide (p.2 < -(3/10)))).map Prod.fst

/-- Anti-profile keywords (lines 194-197): top 15 anti-keyword weights in
descending order, keeping only strictly positive weights. -/
def antiKeywordsOf (m : AMap) : List String :=
  (((sortByLe byValDesc m).take 15).filter (fun p => decide (p.2 > 0))).map Prod.fst

/-- The full `build_profile` aggregation (lines 87-214 of
`taste_profiler.py`). The enriched history rows arrive in database order;
`feedback` is the per-item feedback map and `overrides` the influence
overrides in query order. Python iterates a `set` when building
`genre_affinities`; the set order only affects tie-breaking in the final
value-descending sort, and is modelled here as positive-pool keys first. -/
def buildProfile (watches : List EnrichedWatch) (feedback : ℤ → Option String)
    (overrides : List Override) : Profile :=
  if watches.isEmpty then emptyProfile
  else
    let P := watches.foldl (accumulateWatch feedback) initPools
    let genreAff := overrides.foldl applyOverride (genreAffPre P)
    { genreAffinities := sortByLe byValDesc genreAff
      personnelAffinities := topAffinities 50 P.personnelScores
      keywordAffinities := topAffinities 30 P.keywordScores
      antiProfile := { genres := antiGenresOf genreAff, keywords := antiKeywordsOf P.antiKeywords }
      stats :=
        { totalWatches := watches.length
          avgCompletion := pyRound 1 (P.totalCompletion / watches.length)
          totalSignalStrength := pyRound 1 P.totalSignal } }

/-- The weighted embedding-reference list of
`TasteProfiler.build_taste_embedding` (lines 216-259): one `(embedding_id,
signal * decay)` pair per watch whose metadata has a truthy `embedding_id`
and whose weighted signal is strictly positive, in history order, uncapped. -/
def buildTasteEmbedding (watches : List EnrichedWatch) (feedback : ℤ → Option String) :
    List (String × ℚ) :=
  watches.filterMap (fun w =>
    match w.tmdb.embeddingId with
    | none => none
    | some e =>
      if e = "" then none
      else
        let weight := computeSignal w.history (feedback w.tmdb.tmdbId) * w.decay
        if weight ≤ 0 then none else some (e, weight))

/-- The reference sequence `_build_taste_vector` actually sends to the
vector store (`recommender.py` lines 237-238): the first 100 entries of the
uncapped sequence, in history order (`weighted_refs[:100]`). -/
def buildTasteVectorRefs (watches : List EnrichedWatch) (feedback : ℤ → Option String) :
    List (String × ℚ) :=
  (buildTasteEmbedding watches feedback).take 100

/-- Decay weight as a function of the elapsed whole-day count
(`TasteProfiler._temporal_decay`): `math.exp(-0.693 * days_ago / 90)`, where
the source approximates the natural log of 2 by the literal `0.693`. -/
noncomputable def decayOfDays (d : ℤ) : ℝ := Real.exp (-(693/1000) * d / 90)

/-- `TasteProfiler._temporal_decay(watched_at)`: a missing timestamp gets the
fixed weight 0.5, otherwise the exponential decay of the elapsed day count
`(now - watched_at).days` (floor division of the elapsed seconds by 86400,
matching the Python `timedelta.days` attribute). -/
noncomputable def temporalDecay (watchedAt : Option ℤ) (now : ℤ) : ℝ :=
  match watchedAt with
  | none => 1/2
  | some t => decayOfDays (Int.fdiv (now - t) 86400)

/-- The signals attached to a Recommendation, modelling the `signals` dict:
`dict.get` with default 0 for the numeric entries, `None` for `method`. -/
structure Signals where
  method : Option String
  similarity : ℚ
  genreBoost : ℚ
  antiPenalty : ℚ
  popularityFactor : ℚ
  originalSignal : Option ℚ
deriving DecidableEq

/-- The all-default signals value of a freshly built Recommendation. -/
def emptySignals : Signals :=
  { method := none, similarity := 0, genreBoost := 0, antiPenalty := 0
    popularityFactor := 0, originalSignal := none }

/-- A Recommendation record (`recommender.py` dataclass), restricted to the
fields the scoring logic reads or writes; the explanation string is replaced
by the deterministic template category (see `explainCategory`), because the
phrasing inside a category is randomized and carries no logic. -/
structure Recommendation where
  tmdbId : ℤ
  mediaType : String
  genres : List String
  year : Option ℤ
  originalLanguage : Option String
  score : ℚ
  signals : Signals
  mode : String
  inLibrary : Bool
deriving DecidableEq

/-- `RecommendationEngine._tmdb_to_recommendation`: builds the record with
the score rounded to 4 decimal places (`round(score, 4)`), empty signals and
mode, to be filled by the caller. -/
def tmdbToRecommendation (t : TmdbMeta) (score : ℚ) (inLib : Bool) : Recommendation :=
  { tmdbId := t.tmdbId, mediaType := t.mediaType, genres := t.genres, year := t.year
    originalLanguage := t.originalLanguage, score := pyRound 4 score
    signals := emptySignals, mode := "", inLibrary := inLib }

/-- `RecommendationEngine._genre_boost`: mean of the profile affinities of
the candidate genres (missing genres count as 0), or 0 when the candidate
has no genres or the profile has no genre affinities. -/
def genreBoostOf (t : TmdbMeta) (profile : Profile) : ℚ :=
  if t.genres.isEmpty ∨ profile.genreAffinities.isEmpty then 0
  else (t.genres.map (fun g => getVal profile.genreAffinities g)).sum / t.genres.length

/-- `RecommendationEngine._anti_penalty`: 0.3 per candidate genre in the
anti-profile genres plus 0.1 per candidate keyword in the anti-profile
keywords, capped at 1.0. -/
def antiPenaltyOf (t : TmdbMeta) (profile : Profile) : ℚ :=
  let pg := ((t.genres.filter (fun g => profile.antiProfile.genres.contains g)).length : ℚ) * (3/10)
  let pk :=
    ((t.keywords.filter (fun k => profile.antiProfile.keywords.contains k)).length : ℚ) * (1/10)
  min (pg + pk) 1

/-- The popularity factor of `_process_results`: `vote_average / 100` when
the rating is present and truthy (a stored 0 is falsy in Python and leaves
the factor at 0, which coincides with 0/100 anyway). -/
def popFactorOf (t : TmdbMeta) : ℚ :=
  match t.voteAverage with
  | none => 0
  | some v => if v = 0 then 0 else v / 100

/-- User filters for a recommendation request; a `none` field models an
absent dict key (`"genres" in filters` is false). -/
structure Filters where
  genres : Option (List String)
  excludeGenres : Option (List String)
  yearMin : Option ℤ
  yearMax : Option ℤ
  language : Option String

/-- `RecommendationEngine._passes_filters`. Every check is guarded by the
truthiness of the candidate attribute, exactly as in the source: a candidate
with an empty genre list bypasses both genre filters, a missing or zero year
bypasses the year bounds, and a missing or empty original language bypasses
the language filter. -/
def passesFilters (t : TmdbMeta) (f : Filters) : Bool :=
  (match f.genres with
   | some req => if t.genres.isEmpty then true else req.any (fun g => t.genres.contains g)
   | none => true) &&
  (match f.excludeGenres with
   | some exc => if t.genres.isEmpty then true else ! exc.any (fun g => t.genres.contains g)
   | none => true) &&
  (match f.yearMin, t.year with
   | some y, some ty => if ty = 0 then true else decide (y ≤ ty)
   | _, _ => true) &&
  (match f.yearMax, t.year with
   | some y, some ty => if ty = 0 then true else decide (ty ≤ y)
   | _, _ => true) &&
  (match f.language, t.originalLanguage with
   | some lang, some l => if l = "" then true else l == lang
   | _, _ => true)

/-- One similarity hit from the vector store: the `tmdb_id` entry of the hit
metadata (absent modelled as `none`) and the cosine distance. -/
structure ChromaHit where
  tmdbId : Option ℤ
  distance : ℚ
deriving DecidableEq

/-- Metadata lookup `select(TmdbCache).where(tmdb_id == id).limit(1)` over
the cache rows in table order. -/
def lookupMeta (db : List TmdbMeta) (id : ℤ) : Option TmdbMeta :=
  db.find? (fun t => t.tmdbId == id)

/-- The per-candidate combined score of `_process_results` (line 357-358):
`similarity*0.6 + genre_boost*0.25 + pop_factor*0.05 - anti_penalty*0.10`,
clamped to the unit interval. -/
def combinedScore (similarity gb pf ap : ℚ) : ℚ :=
  clamp01 (similarity * (6/10) + gb * (25/100) + pf * (5/100) - ap * (10/100))

/-- The body of the result loop of `_process_results` for a single hit:
skip on missing or falsy `tmdb_id`, on exclusion (already watched at 40
percent or more), on the library filter, and on unresolved metadata; then
score, apply the user filters, and build the Recommendation with its signal
breakdown rounded to 4 decimal places. -/
def processHit (db : List TmdbMeta) (accessible exclude : List ℤ) (inLibraryOnly : Bool)
    (profile : Profile) (filters : Option Filters) (hit : ChromaHit) : Option Recommendation :=
  match hit.tmdbId with
  | none => none
  | some id =>
    if id = 0 then none
    else if exclude.contains id then none
    else
      let inLib := accessible.contains id
      if inLibraryOnly ∧ ¬ inLib then none
      else
        let similarity := max 0 (1 - hit.distance)
        match lookupMeta db id with
        | none => none
        | some t =>
          let gb := genreBoostOf t profile
          let ap := antiPenaltyOf t profile
          let pf := popFactorOf t
          let score := combinedScore similarity gb pf ap
          let keep := match filters with
            | some f => passesFilters t f
            | none => true
          if keep then
            let r := tmdbToRecommendation t score inLib
            some { r with signals :=
              { emptySignals with similarity := pyRound 4 similarity
                                  genreBoost := pyRound 4 gb
                                  antiPenalty := pyRound 4 ap
                                  popularityFactor := pyRound 4 pf } }
          else none

/-- `RecommendationEngine._process_results`: score and filter every hit,
then sort descending by score (Python stable sort). -/
def processResults (hits : List ChromaHit) (db : List TmdbMeta) (accessible exclude : List ℤ)
    (inLibraryOnly : Bool) (profile : Profile) (filters : Option Filters) :
    List Recommendation :=
  sortByLe (fun a b => decide (b.score ≤ a.score))
    (hits.filterMap (processHit db accessible exclude inLibraryOnly profile filters))

/-- The Recommendation built by `_cold_start_recommendations` for one cache
row: fixed score 0.5, `in_library` forced true, mode `tonight`, and the
`cold_start_popularity` method marker. -/
def mkColdRec (t : TmdbMeta) : Recommendation :=
  let r := tmdbToRecommendation t (1/2) true
  { r with mode := "tonight", signals := { emptySignals with method := some "cold_start_popularity" } }

/-- The accumulation loop of `_cold_start_recommendations`: walk the
popularity-ordered rows, skip rows that fail the user filters, append
otherwise, and stop as soon as `limit` results have been collected (`n` is
the number collected so far). -/
def coldStartLoop (filters : Option Filters) (limit : ℕ) : List TmdbMeta → ℕ → List Recommendation
  | [], _ => []
  | t :: ts, n =>
    if (match filters with | some f => ! passesFilters t f | none => false) then
      coldStartLoop filters limit ts n
    else
      mkColdRec t :: (if n + 1 ≥ limit then [] else coldStartLoop filters limit ts (n + 1))

/-- `RecommendationEngine._cold_start_recommendations`: the database gives
the cache rows with a non-null `vote_average`, ordered by popularity
descending, limited to `limit * 3`; the loop then applies the user filters
and truncates to `limit`. `db` is the full cache in popularity-descending
order (the ordering itself is the job of the external store). -/
def coldStartRecommendations (db : List TmdbMeta) (limit : ℕ) (filters : Option Filters) :
    List Recommendation :=
  coldStartLoop filters limit ((db.filter (fun t => t.voteAverage.isSome)).take (limit * 3)) 0

/-- The external-service environment of a recommendation request: the
popularity-ordered metadata cache, the accessible and already-watched id
sets, the similarity hits the vector store returns for the taste vector, and
whether the vector-resolution call to the store succeeded. -/
structure Env where
  db : List TmdbMeta
  accessible : List ℤ
  watched : List ℤ
  chromaHits : List ChromaHit
  vectorResolved : Bool

/-- `RecommendationEngine.recommend_tonight`: cold start when the profile
has no watches or no taste vector can be built, otherwise score the
similarity hits with the in-library filter and truncate to `limit`. -/
def recommendTonight (env : Env) (watches : List EnrichedWatch) (feedback : ℤ → Option String)
    (overrides : List Override) (limit : ℕ) (filters : Option Filters) : List Recommendation :=
  let profile := buildProfile watches feedback overrides
  if profile.stats.totalWatches = 0 then coldStartRecommendations env.db limit filters
  else
    let refs := buildTasteVectorRefs watches feedback
    if refs.isEmpty ∨ ¬ env.vectorResolved then coldStartRecommendations env.db limit filters
    else
      ((processResults env.chromaHits env.db env.accessible env.watched true profile
          filters).take limit).map (fun r => { r with mode := "tonight" })

/-- `RecommendationEngine.recommend_grab`: returns the empty list
immediately when the profile has no watches (no cold start in this mode),
otherwise scores without the library requirement, keeps only candidates not
in the library, and truncates to `limit`. -/
def recommendGrab (env : Env) (watches : List EnrichedWatch) (feedback : ℤ → Option String)
    (overrides : List Override) (limit : ℕ) (filters : Option Filters) : List Recommendation :=
  let profile := buildProfile watches feedback overrides
  if profile.stats.totalWatches = 0 then []
  else
    let refs := buildTasteVectorRefs watches feedback
    if refs.isEmpty ∨ ¬ env.vectorResolved then []
    else
      (((processResults env.chromaHits env.db env.accessible env.watched false profile
          filters).filter (fun c => ¬ c.inLibrary)).take limit).map
        (fun r => { r with mode := "grab" })

/-- The row set of the rediscover query: watch rows joined to their
metadata, restricted to `completion_pct >= 70` (NULL compares false in SQL)
and ordered by `created_at` ascending. -/
def rediscoverQuery (history : List (WatchHistory × TmdbMeta)) : List (WatchHistory × TmdbMeta) :=
  sortByLe (fun a b => decide (a.1.createdAt ≤ b.1.createdAt))
    (history.filter (fun r => match r.1.completionPct with
      | some c => decide (c ≥ 70)
      | none => false))

/-- The algorithm the body of `recommend_rediscover` describes (and that its
own docstring documents): keep rows whose last watch timestamp
(`started_at or created_at`; `created_at` is non-null) is at least 180 days
old, recompute the raw signal with no feedback and keep it only when at
least 3.0, score each kept row at `signal / 10`, sort descending by score
and truncate to `limit`. See `recommendRediscoverRun` for what the function
as written actually does. -/
def recommendRediscoverIntended (history : List (WatchHistory × TmdbMeta)) (now : ℤ)
    (limit : ℕ) : List Recommendation :=
  let sixMonthsAgo := now - 180 * 86400
  let candidates := (rediscoverQuery history).filterMap (fun r =>
    let watchedAt := r.1.startedAt.getD r.1.createdAt
    if watchedAt > sixMonthsAgo then none
    else
      let signal := computeSignal r.1 none
      if signal < 3 then none
      else
        let rec0 := tmdbToRecommendation r.2 (signal / 10) true
        some { rec0 with signals := { emptySignals with originalSignal := some signal } })
  ((sortByLe (fun a b => decide (b.score ≤ a.score)) candidates).take limit).map
    (fun r => { r with mode := "rediscover" })

/-- What `recommend_rediscover` as written does when called: the assignment
`six_months_ago = datetime.now(timezone.utc) - timedelta(days=180)` on line
197 of `recommender.py` references `datetime`, which is never imported in
that module, and `timezone`, which the local statement
`from datetime import timezone` binds only on the following line 198 (a
local name in Python is unbound before its assignment executes). The call
therefore raises a NameError before producing any recommendation,
irrespective of the inputs. -/
def recommendRediscoverRun (_history : List (WatchHistory × TmdbMeta)) (_now : ℤ)
    (_limit : ℕ) : Except String (List Recommendation) :=
  Except.error "NameError: name datetime is not defined"

/-- The explanation template categories of `explanations.py`. -/
inductive ExplCategory where
  | popular
  | multiSignal
  | directorMatch
  | actorMatch
  | genreMatch
  | themeMatch
  | similarVibe
  | rediscoverTemplate
deriving DecidableEq

/-- `ExplanationEngine._find_personnel_match`: the first profile personnel
entry with affinity above 0.4. The candidate credits are not consulted at
all (the source notes that the Recommendation record carries no cast or
crew), so the match is a function of the profile alone. -/
def findPersonnelMatch (profile : Profile) : Option (String × ℚ) :=
  profile.personnelAffinities.find? (fun p => decide (p.2 > 2/5))

/-- `ExplanationEngine._find_theme_match`: the keyword-affinity entries
above 0.3 (the match text joins the first three; only emptiness matters for
category selection). -/
def findThemeMatch (profile : Profile) : List (String × ℚ) :=
  profile.keywordAffinities.filter (fun p => decide (p.2 > 3/10))

/-- The deterministic category-selection ladder of
`ExplanationEngine.explain`, with the randomized phrasing inside a category
abstracted away. Order as in the source: rediscover mode, cold start,
genre-and-personnel combination, personnel above 0.5, genre above 0.15,
theme match, similarity above 0.6, then the final fallback, which returns a
genre template whenever `genre_boost > 0` and a similarity template
otherwise. -/
def explainCategory (mode : String) (sig : Signals) (profile : Profile) : ExplCategory :=
  if mode = "rediscover" then .rediscoverTemplate
  else if sig.method = some "cold_start_popularity" then .popular
  else
    let pm := findPersonnelMatch profile
    let tm := findThemeMatch profile
    if sig.genreBoost > 1/5 ∧ pm.isSome then .multiSignal
    else if (pm.map (fun p => decide (p.2 > 1/2))).getD false then .directorMatch
    else if sig.genreBoost > 3/20 then .genreMatch
    else if ¬ tm.isEmpty then .themeMatch
    else if sig.similarity > 3/5 then .similarVibe
    else if sig.genreBoost > 0 then .genreMatch
    else .similarVibe

/-- The combined-template condition as the specification words it (claim
C8): a personnel match exists when some personnel credited on the candidate
has profile affinity above 0.4. Stated over an explicit list of the
candidate credited personnel names; written from the spec for comparison
with `findPersonnelMatch`, which ignores the candidate. -/
def specC8CombinedCond (credited : List String) (profile : Profile) (genreBoost : ℚ) : Prop :=
  genreBoost > 1/5 ∧ ∃ n ∈ credited, getVal profile.personnelAffinities n > 2/5

/-- The per-record signal formula exactly as claim C3 words it: completion
term (five for 85 and above, two for the closed interval 40 to 84, minus
three strictly between 0 and 20), rewatch term, rating term applying
whenever a rating is present (minus two for any rating at most 4), and
feedback term. Written from the claim for comparison with `computeSignal`. -/
def specC3Signal (h : WatchHistory) (fb : Option String) : ℚ :=
  (match h.completionPct with
   | none => 0
   | some c =>
     if c ≥ 85 then 5
     else if 40 ≤ c ∧ c ≤ 84 then 2
     else if 0 < c ∧ c < 20 then -3
     else 0)
  + (if h.watchCount > 1 then 4 else 0)
  + (match h.userRating with
     | none => 0
     | some r => if r ≥ 8 then 3 else if r ≤ 4 then -2 else 0)
  + (if fb = some "up" then 3
     else if fb = some "down" then -4
     else if fb = some "dismiss" then -1
     else 0)

/-- The signal formula as amended for claim C3: the partial-completion band
is the half-open interval from 40 up to but excluding 85, and the rating
term applies only to a present, nonzero rating (Python truthiness), so a
stored rating of exactly 0 contributes nothing. -/
def amendedC3Signal (h : WatchHistory) (fb : Option String) : ℚ :=
  (match h.completionPct with
   | none => 0
   | some c =>
     if c ≥ 85 then 5
     else if 40 ≤ c ∧ c < 85 then 2
     else if 0 < c ∧ c < 20 then -3
     else 0)
  + (if h.watchCount > 1 then 4 else 0)
  + (match h.userRating with
     | none => 0
     | some r => if r = 0 then 0 else if r ≥ 8 then 3 else if r ≤ 4 then -2 else 0)
  + (if fb = some "up" then 3
     else if fb = some "down" then -4
     else if fb = some "dismiss" then -1
     else 0)


/-- Plain metadata row for concrete examples: no genres, keywords,
personnel, rating, year or embedding. -/
def exMetaPlain : TmdbMeta := ⟨1, "movie", [], [], [], [], none, none, none, none⟩

/-- Metadata row carrying the embedding reference `small`. -/
def exMetaSmall : TmdbMeta := ⟨1, "movie", [], [], [], [], none, none, none, some "small"⟩

/-- Metadata row carrying the embedding reference `big`. -/
def exMetaBig : TmdbMeta := ⟨2, "movie", [], [], [], [], none, none, none, some "big"⟩

/-- A fully-watched item with embedding `small`: raw signal 5, decay 1,
weight 5. -/
def exWatchSmall : EnrichedWatch := ⟨⟨1, none, 0, some 90, 1, none⟩, exMetaSmall, 1⟩

/-- A rewatched, highly rated item with embedding `big`: raw signal
5 + 4 + 3 = 12, decay 1, weight 12. -/
def exWatchBig : EnrichedWatch := ⟨⟨2, none, 0, some 90, 2, some 9⟩, exMetaBig, 1⟩

/-- 100 weight-5 watches followed by one weight-12 watch: the heaviest
entry arrives last in history order. -/
def c9Watches : List EnrichedWatch := List.replicate 100 exWatchSmall ++ [exWatchBig]

/-- Metadata row with the single genre Action. -/
def exMetaAction : TmdbMeta := ⟨3, "movie", ["Action"], [], [], [], none, none, none, none⟩

/-- Metadata row with the single genre Drama. -/
def exMetaDrama : TmdbMeta := ⟨4, "movie", ["Drama"], [], [], [], none, none, none, none⟩

/-- A fully-watched Action item: weighted signal 5. -/
def exWatchAction : EnrichedWatch := ⟨⟨3, none, 0, some 90, 1, none⟩, exMetaAction, 1⟩

/-- A half-watched Drama item: weighted signal 2. -/
def exWatchDrama : EnrichedWatch := ⟨⟨4, none, 0, some 50, 1, none⟩, exMetaDrama, 1⟩

/-- Overrides for the C6 counterexample: a boost with an explicit magnitude
of 0 on a watched genre, and a block on a genre that never occurs in the
history. -/
def c6Overrides : List Override :=
  [⟨"genre", "Drama", "boost", some 0⟩, ⟨"genre", "Horror", "block", none⟩]

/-- A profile whose personnel affinities contain one strong entry; the
concrete candidates it will be used with credit nobody at all. -/
def c8ProfilePersonnel : Profile := ⟨[], [("Greta", 9/10)], [], ⟨[], []⟩, ⟨1, 0, 0⟩⟩

/-- Signals with genre boost 0.3 and low similarity. -/
def c8SigCombined : Signals := ⟨none, 1/10, 3/10, 0, 0, none⟩

/-- Signals with genre boost 0.1 (positive but at most 0.15) and low
similarity, firing none of ladder rules 2 to 6. -/
def c8SigWeak : Signals := ⟨none, 1/5, 1/10, 0, 0, none⟩

/-- A popularity-ordered metadata cache with five rated rows and one
unrated row, for the cold-start scenario. -/
def c7Db : List TmdbMeta :=
  [⟨11, "movie", [], [], [], [], some 8, none, none, none⟩,
   ⟨12, "movie", [], [], [], [], some 7, none, none, none⟩,
   ⟨13, "movie", [], [], [], [], some 9, none, none, none⟩,
   ⟨14, "movie", [], [], [], [], some 6, none, none, none⟩,
   ⟨15, "movie", [], [], [], [], some 5, none, none, none⟩,
   ⟨16, "movie", [], [], [], [], none, none, none, none⟩]

/-- Environment for the cold-start scenario: the cache above, no library
mapping, no watched ids, no similarity hits. -/
def c7Env : Env := ⟨c7Db, [], [], [], false⟩

/-- A single qualifying rediscover row: fully watched at epoch 0. -/
def c5History : List (WatchHistory × TmdbMeta) := [(⟨1, some 0, 0, some 90, 1, none⟩, exMetaPlain)]

/-- The Recommendation the pipeline emits for the C1 concrete input: score
rounded down to 0, empty signals breakdown. -/
def c1Rec : Recommendation := ⟨1, "movie", [], none, none, 0, emptySignals, "", true⟩

/-- A genres-only filter requiring Action. -/
def c10Filters : Filters := ⟨some ["Action"], none, none, none, none⟩

/-- The Recommendation emitted for the C10 witness input: an Action
candidate at distance 0.5 against the empty profile. -/
def c10Rec : Recommendation :=
  ⟨3, "movie", ["Action"], none, none, 3/10, { emptySignals with similarity := 1/2 }, "", true⟩

/-- The Recommendation the intended rediscover algorithm yields for the
single row of `c5History` at a `now` of 400 days after the epoch. -/
def c5Rec : Recommendation :=
  ⟨1, "movie", [], none, none, 1/2, { emptySignals with originalSignal := some 5 }, "rediscover",
   true⟩
end Recommendarr

namespace Recommendarr

theorem clamp01_nonneg (x : ℚ) : 0 ≤ clamp01 x := le_max_left 0 _

theorem clamp01_le_one (x : ℚ) : clamp01 x ≤ 1 := by
  unfold clamp01
  rcases le_total 0 (min 1 x) with h | h
  · rw [max_eq_right h]; exact min_le_left 1 x
  · rw [max_eq_left h]; exact zero_le_one

theorem roundHalfEven_le {x : ℚ} {B : ℤ} (h : x ≤ B) : roundHalfEven x ≤ B := by
  unfold roundHalfEven
  have hf : ⌊x⌋ ≤ B := by
    have := Int.floor_le_floor h
    simpa using this
  split
  · exact hf
  · rename_i h1
    push_neg at h1
    have hx : (⌊x⌋ : ℚ) < x := by
      have h0 : (0:ℚ) < x - ⌊x⌋ := lt_of_lt_of_le (by norm_num) h1
      linarith
    have hcc : ⌊x⌋ + 1 ≤ ⌈x⌉ := by
      have := Int.lt_ceil.mpr hx
      omega
    have hc : ⌈x⌉ ≤ B := Int.ceil_le.mpr h
    split
    · omega
    · split <;> omega

theorem le_roundHalfEven {x : ℚ} {B : ℤ} (h : (B : ℚ) ≤ x) : B ≤ roundHalfEven x := by
  unfold roundHalfEven
  have hf : B ≤ ⌊x⌋ := Int.le_floor.mpr h
  split
  · exact hf
  · split
    · omega
    · split <;> omega

theorem pyRound_le {n : ℕ} {x B : ℚ} (hB : ∃ b : ℤ, (b : ℚ) = B * 10 ^ n) (h : x ≤ B) :
    pyRound n x ≤ B := by
  obtain ⟨b, hb⟩ := hB
  unfold pyRound
  have hpow : (0:ℚ) < 10 ^ n := by positivity
  rw [div_le_iff₀ hpow, ← hb]
  have : x * 10 ^ n ≤ (b : ℚ) := by
    rw [hb]
    exact mul_le_mul_of_nonneg_right h (le_of_lt hpow)
  exact_mod_cast roundHalfEven_le this

theorem le_pyRound {n : ℕ} {x B : ℚ} (hB : ∃ b : ℤ, (b : ℚ) = B * 10 ^ n) (h : B ≤ x) :
    B ≤ pyRound n x := by
  obtain ⟨b, hb⟩ := hB
  unfold pyRound
  have hpow : (0:ℚ) < 10 ^ n := by positivity
  rw [le_div_iff₀ hpow, ← hb]
  have : (b : ℚ) ≤ x * 10 ^ n := by
    rw [hb]
    exact mul_le_mul_of_nonneg_right h (le_of_lt hpow)
  exact_mod_cast le_roundHalfEven this

theorem pyRound_mem_Icc {n : ℕ} {x : ℚ} (h1 : -1 ≤ x) (h2 : x ≤ 1) :
    -1 ≤ pyRound n x ∧ pyRound n x ≤ 1 := by
  constructor
  · exact le_pyRound ⟨-(10 ^ n), by push_cast; ring⟩ h1
  · exact pyRound_le ⟨10 ^ n, by push_cast; ring⟩ h2

theorem pyRound_mem_unit {n : ℕ} {x : ℚ} (h1 : 0 ≤ x) (h2 : x ≤ 1) :
    0 ≤ pyRound n x ∧ pyRound n x ≤ 1 := by
  constructor
  · exact le_pyRound ⟨0, by push_cast; ring⟩ h1
  · exact pyRound_le ⟨10 ^ n, by push_cast; ring⟩ h2

theorem le_foldl_max (l : List ℚ) (acc : ℚ) :
    acc ≤ l.foldl max acc ∧ ∀ x ∈ l, x ≤ l.foldl max acc := by
  induction l generalizing acc with
  | nil => simp
  | cons y ys ih =>
    have h := ih (max acc y)
    refine ⟨le_trans (le_max_left acc y) h.1, ?_⟩
    intro x hx
    rcases List.mem_cons.mp hx with rfl | hx
    · exact le_trans (le_max_right acc x) h.1
    · exact h.2 x hx

theorem le_listMax {x : ℚ} {l : List ℚ} (d : ℚ) (h : x ∈ l) : x ≤ listMax d l := by
  cases l with
  | nil => cases h
  | cons y ys =>
    rcases List.mem_cons.mp h with rfl | hx
    · exact (le_foldl_max ys x).1
    · exact (le_foldl_max ys y).2 x hx

theorem listMax_nonneg {d : ℚ} {l : List ℚ} (hd : 0 ≤ d) (h : ∀ x ∈ l, 0 ≤ x) :
    0 ≤ listMax d l := by
  cases l with
  | nil => exact hd
  | cons y ys => exact le_trans (h y (by simp)) ((le_foldl_max ys y).1)

theorem addVal_forall {P : ℚ → Prop} {m : AMap} {k : String} {v : ℚ}
    (hm : ∀ p ∈ m, P p.2) (hv : P v) (hadd : ∀ a, P a → P (a + v)) :
    ∀ p ∈ addVal m k v, P p.2 := by
  induction m with
  | nil => intro p hp; simp only [addVal, List.mem_singleton] at hp; subst hp; exact hv
  | cons q rest ih =>
    intro p hp
    simp only [addVal] at hp
    split at hp
    · rcases List.mem_cons.mp hp with rfl | hp
      · exact hadd q.2 (hm q (by simp))
      · exact hm p (List.mem_cons_of_mem _ hp)
    · rcases List.mem_cons.mp hp with rfl | hp
      · exact hm p (by simp)
      · exact ih (fun r hr => hm r (List.mem_cons_of_mem _ hr)) p hp

theorem setVal_forall {P : ℚ → Prop} {m : AMap} {k : String} {v : ℚ}
    (hm : ∀ p ∈ m, P p.2) (hv : P v) :
    ∀ p ∈ setVal m k v, P p.2 := by
  induction m with
  | nil => intro p hp; simp [setVal] at hp
  | cons q rest ih =>
    intro p hp
    simp only [setVal] at hp
    split at hp
    · rcases List.mem_cons.mp hp with rfl | hp
      · exact hv
      · exact hm p (List.mem_cons_of_mem _ hp)
    · rcases List.mem_cons.mp hp with rfl | hp
      · exact hm p (by simp)
      · exact ih (fun r hr => hm r (List.mem_cons_of_mem _ hr)) p hp

theorem foldl_preserve {α β : Type} {P : β → Prop} {step : β → α → β}
    (h : ∀ b a, P b → P (step b a)) :
    ∀ (l : List α) (b : β), P b → P (l.foldl step b) := by
  intro l
  induction l with
  | nil => intro b hb; exact hb
  | cons x xs ih => intro b hb; exact ih (step b x) (h b x hb)

theorem getVal_mem_or_zero (m : AMap) (k : String) :
    (∃ p ∈ m, p.1 = k ∧ p.2 = getVal m k) ∨ getVal m k = 0 := by
  unfold getVal
  cases hf : m.find? (fun p => p.1 == k) with
  | none => right; simp
  | some p =>
    left
    refine ⟨p, List.mem_of_find?_eq_some hf, ?_, by simp⟩
    simpa using List.find?_some hf

theorem getVal_nonneg {m : AMap} {k : String} (h : ∀ p ∈ m, 0 ≤ p.2) :
    0 ≤ getVal m k := by
  rcases getVal_mem_or_zero m k with ⟨p, hp, _, hv⟩ | hz
  · rw [← hv]; exact h p hp
  · rw [hz]

theorem getVal_le_listMax {m : AMap} {k : String} {d : ℚ} (hd : 0 ≤ d)
    (h : ∀ p ∈ m, 0 ≤ p.2) : getVal m k ≤ listMax d (valsOf m) := by
  rcases getVal_mem_or_zero m k with ⟨p, hp, _, hv⟩ | hz
  · rw [← hv]
    exact le_listMax d (by exact List.mem_map_of_mem Prod.snd hp)
  · rw [hz]
    exact listMax_nonneg hd (fun x hx => by
      obtain ⟨p, hp, rfl⟩ := List.mem_map.mp hx
      exact h p hp)

theorem mem_insertLe {α : Type} {le : α → α → Bool} {x a : α} {l : List α} :
    a ∈ insertLe le x l ↔ a = x ∨ a ∈ l := by
  induction l with
  | nil => simp [insertLe]
  | cons y ys ih =>
    simp only [insertLe]
    split
    · simp only [List.mem_cons]
    · simp only [List.mem_cons, ih]; tauto

theorem mem_sortByLe {α : Type} {le : α → α → Bool} {a : α} {l : List α} :
    a ∈ sortByLe le l ↔ a ∈ l := by
  induction l with
  | nil => simp [sortByLe]
  | cons x xs ih =>
    simp only [sortByLe, mem_insertLe, ih, List.mem_cons]

theorem pairwise_insertLe {α : Type} {le : α → α → Bool}
    (htrans : ∀ a b c, le a b = true → le b c = true → le a c = true)
    (htotal : ∀ a b, le a b = true ∨ le b a = true)
    {x : α} {l : List α} (h : l.Pairwise (fun a b => le a b = true)) :
    (insertLe le x l).Pairwise (fun a b => le a b = true) := by
  induction l with
  | nil => simp [insertLe]
  | cons y ys ih =>
    simp only [insertLe]
    split
    · rename_i hxy
      refine List.Pairwise.cons ?_ h
      intro b hb
      rcases List.mem_cons.mp hb with rfl | hb
      · exact hxy
      · exact htrans x y b hxy ((List.pairwise_cons.mp h).1 b hb)
    · rename_i hxy
      have hyx : le y x = true := by
        rcases htotal x y with h1 | h1
        · exact absurd h1 hxy
        · exact h1
      refine List.Pairwise.cons ?_ (ih (List.pairwise_cons.mp h).2)
      intro b hb
      rcases mem_insertLe.mp hb with rfl | hb
      · exact hyx
      · exact (List.pairwise_cons.mp h).1 b hb

theorem pairwise_sortByLe {α : Type} {le : α → α → Bool}
    (htrans : ∀ a b c, le a b = true → le b c = true → le a c = true)
    (htotal : ∀ a b, le a b = true ∨ le b a = true)
    (l : List α) : (sortByLe le l).Pairwise (fun a b => le a b = true) := by
  induction l with
  | nil => simp [sortByLe]
  | cons x xs ih => exact pairwise_insertLe htrans htotal ih

end Recommendarr

namespace Recommendarr

theorem completionTerm_eq (c : ℚ) :
    (if c ≥ 85 then (5:ℚ) else if c ≥ 40 then 2 else if c < 20 ∧ c > 0 then -3 else 0)
  = (if c ≥ 85 then 5 else if 40 ≤ c ∧ c < 85 then 2 else if 0 < c ∧ c < 20 then -3 else 0) := by
  by_cases h85 : c ≥ 85
  · simp [h85]
  · have hlt : c < 85 := lt_of_not_ge h85
    by_cases h40 : c ≥ 40
    · simp only [if_neg h85, if_pos h40, if_pos (And.intro h40 hlt)]
    · have hn : ¬ (40 ≤ c ∧ c < 85) := fun hc => h40 hc.1
      simp only [if_neg h85, if_neg h40, if_neg hn]
      exact if_congr ⟨fun x => ⟨x.2, x.1⟩, fun x => ⟨x.2, x.1⟩⟩ rfl rfl

theorem computeSignal_eq_amended (h : WatchHistory) (fb : Option String) :
    computeSignal h fb = amendedC3Signal h fb := by
  unfold computeSignal amendedC3Signal
  cases hcc : h.completionPct with
  | none => norm_num
  | some c =>
    simp only [Option.getD_some]
    have hc := completionTerm_eq c
    linarith [hc]

/-- C3 counterexample: the claim formula disagrees with `_compute_signal` on
two valid rows. A fractional completion of 84.5 earns the partial bonus in
the code (the band is `[40, 85)`, not `[40, 84]`), and a stored rating of
exactly 0 earns no rating penalty because `if history.user_rating:` is false
for 0 in Python, while the claim demands the penalty for every rating at
most 4. -/
theorem c3_counterexample :
    computeSignal ⟨1, none, 0, some (169/2), 1, none⟩ none = 2 ∧
    specC3Signal ⟨1, none, 0, some (169/2), 1, none⟩ none = 0 ∧
    computeSignal ⟨1, none, 0, some 90, 1, some 0⟩ none = 5 ∧
    specC3Signal ⟨1, none, 0, some 90, 1, some 0⟩ none = 3 := by
  refine ⟨?_, ?_, ?_, ?_⟩ <;> simp only [computeSignal, specC3Signal] <;> norm_num <;> simp

/-- C3 as amended: `_compute_signal` is exactly the additive formula with a
half-open `[40, 85)` partial-completion band and a rating term that skips a
missing or zero rating; on the scenario row (completion 90, watch count 2,
rating 9, feedback up) it yields exactly 15. -/
theorem c3_signal_amended :
    (∀ (h : WatchHistory) (fb : Option String), computeSignal h fb = amendedC3Signal h fb) ∧
    computeSignal ⟨1, none, 0, some 90, 2, some 9⟩ (some "up") = 15 := by
  refine ⟨computeSignal_eq_amended, ?_⟩
  simp only [computeSignal]
  norm_num

theorem decay90_gt_half : 1/2 < decayOfDays 90 := by
  unfold decayOfDays
  have h1 : (693/1000 : ℝ) < Real.log 2 := by
    have h := Real.log_two_gt_d9
    norm_num at h ⊢
    linarith
  have h2 : Real.exp (-Real.log 2) < Real.exp (-(693/1000) * ((90:ℤ) : ℝ) / 90) := by
    apply Real.exp_lt_exp.mpr
    push_cast
    linarith
  have h3 : Real.exp (-Real.log 2) = 1/2 := by
    rw [Real.exp_neg, Real.exp_log (by norm_num : (0:ℝ) < 2)]
    norm_num
  linarith

/-- C4 counterexample: the source computes `exp(-0.693 * days / 90)` with
the literal approximation 0.693, which is strictly below the natural log of
2, so the decay at 90 elapsed days is strictly greater than one half and in
particular not equal to 0.5; and a timestamp 90 days in the future (the day
count is not clamped below at zero) yields a decay strictly above 1,
escaping the claimed interval. -/
theorem c4_counterexample :
    temporalDecay (some (-(90 * 86400))) 0 ≠ 1/2 ∧ 1 < temporalDecay (some (90 * 86400)) 0 := by
  constructor
  · have hd : Int.fdiv (0 - -(90 * 86400)) 86400 = 90 := by decide
    show decayOfDays (Int.fdiv (0 - -(90 * 86400)) 86400) ≠ 1/2
    rw [hd]
    exact ne_of_gt decay90_gt_half
  · have hd : Int.fdiv (0 - 90 * 86400) 86400 = -90 := by decide
    show 1 < decayOfDays (Int.fdiv (0 - 90 * 86400) 86400)
    rw [hd]
    unfold decayOfDays
    rw [show (-(693/1000) * ((-90:ℤ) : ℝ) / 90) = 693/1000 by push_cast; ring]
    calc (1:ℝ) = Real.exp 0 := Real.exp_zero.symm
    _ < Real.exp (693/1000) := Real.exp_lt_exp.mpr (by norm_num)

/-- C4 as amended: `_temporal_decay` returns the fixed weight 0.5 for a
missing timestamp and otherwise `exp(-0.693 * days / 90)` of the elapsed
whole-day count (0.693 approximating the natural log of 2); the decay is 1
at day 0, lies in `(0, 1]` for every non-negative day count, is strictly
decreasing in the day count, and at 90 days is strictly greater than 0.5
(about 0.50005) rather than exactly 0.5. -/
theorem c4_decay_amended :
    (∀ now : ℤ, temporalDecay none now = 1/2) ∧
    decayOfDays 0 = 1 ∧
    (∀ t now : ℤ, temporalDecay (some t) now = decayOfDays (Int.fdiv (now - t) 86400)) ∧
    (∀ d : ℤ, 0 ≤ d → decayOfDays d ≤ 1) ∧
    (∀ d : ℤ, 0 < decayOfDays d) ∧
    (∀ d e : ℤ, d < e → decayOfDays e < decayOfDays d) ∧
    1/2 < decayOfDays 90 := by
  refine ⟨fun _ => rfl, ?_, fun _ _ => rfl, ?_, ?_, ?_, decay90_gt_half⟩
  · unfold decayOfDays
    rw [show (-(693/1000) * ((0:ℤ) : ℝ) / 90) = 0 by push_cast; ring]
    exact Real.exp_zero
  · intro d hd
    unfold decayOfDays
    calc Real.exp (-(693/1000) * (d : ℝ) / 90) ≤ Real.exp 0 := by
          apply Real.exp_le_exp.mpr
          have : (0:ℝ) ≤ (d : ℝ) := by exact_mod_cast hd
          nlinarith
    _ = 1 := Real.exp_zero
  · intro d
    exact Real.exp_pos _
  · intro d e hde
    apply Real.exp_lt_exp.mpr
    have : (d:ℝ) < (e:ℝ) := by exact_mod_cast hde
    nlinarith

/-- Witness for the amended C4 theorem at concrete day counts. -/
theorem c4_witness :
    temporalDecay none 7 = 1/2 ∧ (0:ℤ) ≤ 3 ∧ decayOfDays 3 ≤ 1 ∧ 0 < decayOfDays 3 ∧
    (2:ℤ) < 5 ∧ decayOfDays 5 < decayOfDays 2 := by
  refine ⟨c4_decay_amended.1 7, by norm_num, c4_decay_amended.2.2.2.1 3 (by norm_num),
    c4_decay_amended.2.2.2.2.1 3, by norm_num, c4_decay_amended.2.2.2.2.2.1 2 5 (by norm_num)⟩

end Recommendarr

namespace Recommendarr

theorem filterMap_replicate_of_some {α β : Type} {f : α → Option β} {a : α} {b : β}
    (h : f a = some b) (n : ℕ) :
    List.filterMap f (List.replicate n a) = List.replicate n b := by
  induction n with
  | zero => rfl
  | succ n ih => simp [List.replicate_succ, List.filterMap_cons, h, ih]

theorem tasteEmbedding_small :
    (fun (w : EnrichedWatch) =>
      match w.tmdb.embeddingId with
      | none => none
      | some e =>
        if e = "" then none
        else
          let weight := computeSignal w.history ((fun _ => (none : Option String)) w.tmdb.tmdbId) * w.decay
          if weight ≤ 0 then none else some (e, weight)) exWatchSmall = some ("small", 5) := by
  simp [exWatchSmall, exMetaSmall, computeSignal] <;> norm_num

theorem tasteEmbedding_c9 :
    buildTasteEmbedding c9Watches (fun _ => none) =
      List.replicate 100 ("small", (5:ℚ)) ++ [("big", (12:ℚ))] := by
  unfold c9Watches buildTasteEmbedding
  rw [List.filterMap_append]
  congr 1
  · exact filterMap_replicate_of_some tasteEmbedding_small 100
  · simp [List.filterMap_cons, List.filterMap_nil, exWatchBig, exMetaBig, computeSignal] <;>
      norm_num

/-- C9 counterexample: with 100 weight-5 watches followed by one weight-12
watch, the reference sequence `_build_taste_vector` sends to the store is
the first 100 entries in history order, so the single heaviest entry (weight
12) is dropped while every weight-5 entry is kept, contradicting the claim
that the cap keeps the 100 highest-weight entries. -/
theorem c9_counterexample :
    buildTasteVectorRefs c9Watches (fun _ => none) = List.replicate 100 ("small", (5:ℚ)) ∧
    ("big", (12:ℚ)) ∈ buildTasteEmbedding c9Watches (fun _ => none) ∧
    ("big", (12:ℚ)) ∉ buildTasteVectorRefs c9Watches (fun _ => none) ∧
    ("small", (5:ℚ)) ∈ buildTasteVectorRefs c9Watches (fun _ => none) ∧ (5:ℚ) < 12 := by
  have htake : buildTasteVectorRefs c9Watches (fun _ => none) =
      List.replicate 100 ("small", (5:ℚ)) := by
    unfold buildTasteVectorRefs
    rw [tasteEmbedding_c9]
    rw [show (100:ℕ) = (List.replicate 100 ("small", (5:ℚ))).length by simp]
    exact List.take_left _ _
  refine ⟨htake, ?_, ?_, ?_, by norm_num⟩
  · rw [tasteEmbedding_c9]; simp
  · rw [htake]; simp [List.mem_replicate]
  · rw [htake]; simp [List.mem_replicate]

/-- C9 as amended: the taste-vector reference sequence is exactly the first
100 entries, in history order, of the uncapped weighted-reference list (not
the 100 highest-weight entries); every entry comes from a watch with a
truthy embedding reference and has strictly positive weighted signal. -/
theorem c9_refs_amended :
    (∀ (watches : List EnrichedWatch) (feedback : ℤ → Option String),
      buildTasteVectorRefs watches feedback = (buildTasteEmbedding watches feedback).take 100 ∧
      (buildTasteVectorRefs watches feedback).length ≤ 100) ∧
    (∀ (watches : List EnrichedWatch) (feedback : ℤ → Option String)
      (p : String × ℚ), p ∈ buildTasteVectorRefs watches feedback →
      0 < p.2 ∧ p.1 ≠ "" ∧ ∃ w ∈ watches, w.tmdb.embeddingId = some p.1 ∧
        p.2 = computeSignal w.history (feedback w.tmdb.tmdbId) * w.decay) := by
  constructor
  · intro watches feedback
    exact ⟨rfl, by simpa [buildTasteVectorRefs] using List.length_take_le 100 _⟩
  · intro watches feedback p hp
    have hp2 : p ∈ buildTasteEmbedding watches feedback := (List.take_sublist _ _).subset hp
    unfold buildTasteEmbedding at hp2
    obtain ⟨w, hw, hfw⟩ := List.mem_filterMap.mp hp2
    cases he : w.tmdb.embeddingId with
    | none => rw [he] at hfw; simp at hfw
    | some e =>
      rw [he] at hfw
      dsimp only at hfw
      by_cases hee : e = ""
      · rw [if_pos hee] at hfw; simp at hfw
      · rw [if_neg hee] at hfw
        by_cases hw0 : computeSignal w.history (feedback w.tmdb.tmdbId) * w.decay ≤ 0
        · rw [if_pos hw0] at hfw; simp at hfw
        · rw [if_neg hw0] at hfw
          have hpe : p = (e, computeSignal w.history (feedback w.tmdb.tmdbId) * w.decay) :=
            (Option.some.inj hfw).symm
          subst hpe
          push_neg at hw0
          exact ⟨hw0, hee, w, hw, he, rfl⟩

/-- Witness for the amended C9 theorem at a one-watch history. -/
theorem c9_witness :
    ("small", (5:ℚ)) ∈ buildTasteVectorRefs [exWatchSmall] (fun _ => none) ∧
    (0:ℚ) < 5 ∧ ("small" : String) ≠ "" ∧
    ∃ w ∈ [exWatchSmall], w.tmdb.embeddingId = some "small" ∧
      (5:ℚ) = computeSignal w.history ((fun _ => (none : Option String)) w.tmdb.tmdbId) * w.decay := by
  have hlist : buildTasteEmbedding (List.replicate 1 exWatchSmall) (fun _ => none) =
      List.replicate 1 ("small", (5:ℚ)) := filterMap_replicate_of_some tasteEmbedding_small 1
  have hmem : ("small", (5:ℚ)) ∈ buildTasteVectorRefs [exWatchSmall] (fun _ => none) := by
    unfold buildTasteVectorRefs
    rw [show ([exWatchSmall] : List EnrichedWatch) = List.replicate 1 exWatchSmall from rfl, hlist]
    simp
  have h := c9_refs_amended.2 [exWatchSmall] (fun _ => none) ("small", 5) hmem
  exact ⟨hmem, h.1, h.2.1, h.2.2⟩

end Recommendarr

namespace Recommendarr

/-- C8 counterexample. First: a candidate crediting nobody still receives
the combined template whenever the profile holds any personnel affinity
above 0.4 and the genre boost exceeds 0.2, because
`_find_personnel_match` never consults the candidate credits, so the
claimed exactly-when condition over credited personnel is false. Second:
when none of ladder rules 2 to 6 fires but the genre boost is positive
(here 0.1), the fallback returns the genre template, not the similarity
template the claim requires. -/
theorem c8_counterexample :
    explainCategory "tonight" c8SigCombined c8ProfilePersonnel = .multiSignal ∧
    ¬ specC8CombinedCond [] c8ProfilePersonnel c8SigCombined.genreBoost ∧
    explainCategory "tonight" c8SigWeak emptyProfile = .genreMatch ∧
    findPersonnelMatch emptyProfile = none ∧
    findThemeMatch emptyProfile = [] ∧
    ¬ c8SigWeak.genreBoost > 3/20 ∧
    ¬ c8SigWeak.similarity > 3/5 ∧
    ExplCategory.genreMatch ≠ ExplCategory.similarVibe := by
  refine ⟨?_, ?_, ?_, ?_, ?_, ?_, ?_, by simp⟩
  · simp [explainCategory, findPersonnelMatch, findThemeMatch, c8ProfilePersonnel,
      c8SigCombined] <;> norm_num
  · simp [specC8CombinedCond]
  · simp [explainCategory, findPersonnelMatch, findThemeMatch, emptyProfile, c8SigWeak] <;>
      norm_num
  · simp [findPersonnelMatch, emptyProfile]
  · simp [findThemeMatch, emptyProfile]
  · simp [c8SigWeak]; norm_num
  · simp [c8SigWeak]; norm_num

/-- C8 as amended: outside rediscover and cold start, the combined template
is chosen exactly when the genre boost exceeds 0.2 and some entry of the
profile personnel affinities (the candidate credits are not consulted)
exceeds 0.4; and when none of ladder rules 2 to 6 fires, the fallback is
the genre template if the genre boost is positive and the similarity
template otherwise. -/
theorem c8_ladder_amended (mode : String) (sig : Signals) (profile : Profile)
    (h1 : mode ≠ "rediscover") (h2 : sig.method ≠ some "cold_start_popularity") :
    (explainCategory mode sig profile = .multiSignal ↔
      sig.genreBoost > 1/5 ∧ ∃ p ∈ profile.personnelAffinities, p.2 > 2/5) ∧
    (¬ (sig.genreBoost > 1/5 ∧ (findPersonnelMatch profile).isSome) →
     (∀ p, findPersonnelMatch profile = some p → ¬ p.2 > 1/2) →
     ¬ sig.genreBoost > 3/20 →
     findThemeMatch profile = [] →
     ¬ sig.similarity > 3/5 →
     explainCategory mode sig profile =
       (if sig.genreBoost > 0 then .genreMatch else .similarVibe)) := by
  have hsome : (findPersonnelMatch profile).isSome = true ↔
      ∃ p ∈ profile.personnelAffinities, p.2 > 2/5 := by
    unfold findPersonnelMatch
    rw [List.find?_isSome]
    simp
  constructor
  · unfold explainCategory
    rw [if_neg h1, if_neg h2]
    by_cases hc : sig.genreBoost > 1/5 ∧ (findPersonnelMatch profile).isSome
    · rw [if_pos hc]
      exact ⟨fun _ => ⟨hc.1, hsome.mp hc.2⟩, fun _ => rfl⟩
    · rw [if_neg hc]
      constructor
      · intro heq
        exfalso
        split_ifs at heq <;> simp_all
      · intro hrhs
        exact absurd ⟨hrhs.1, hsome.mpr hrhs.2⟩ hc
  · intro hn2 hn3 hn4 hn5 hn6
    unfold explainCategory
    rw [if_neg h1, if_neg h2, if_neg hn2]
    have h3 : ((findPersonnelMatch profile).map (fun p => decide (p.2 > 1/2))).getD false
        = false := by
      cases hf : findPersonnelMatch profile with
      | none => rfl
      | some p => exact decide_eq_false (hn3 p hf)
    rw [h3]
    simp only [Bool.false_eq_true, if_false]
    rw [if_neg hn4, hn5]
    simp only [List.isEmpty_nil, not_true, if_false]
    rw [if_neg hn6]

/-- Witness for the amended C8 theorem on concrete weak signals and an
empty profile. -/
theorem c8_witness :
    (explainCategory "tonight" c8SigWeak emptyProfile = .multiSignal ↔
      c8SigWeak.genreBoost > 1/5 ∧ ∃ p ∈ emptyProfile.personnelAffinities, p.2 > 2/5) ∧
    explainCategory "tonight" c8SigWeak emptyProfile =
      (if c8SigWeak.genreBoost > 0 then ExplCategory.genreMatch else .similarVibe) := by
  have h := c8_ladder_amended "tonight" c8SigWeak emptyProfile (by simp) (by simp [c8SigWeak])
  refine ⟨h.1, h.2 ?_ ?_ ?_ ?_ ?_⟩
  · intro hc
    exact absurd hc.2 (by simp [findPersonnelMatch, emptyProfile])
  · intro p hp
    simp [findPersonnelMatch, emptyProfile] at hp
  · simp [c8SigWeak]; norm_num
  · simp [findThemeMatch, emptyProfile]
  · simp [c8SigWeak]; norm_num

end Recommendarr

namespace Recommendarr

theorem combinedScore_nonneg (s g p a : ℚ) : 0 ≤ combinedScore s g p a := clamp01_nonneg _

theorem combinedScore_le_one (s g p a : ℚ) : combinedScore s g p a ≤ 1 := clamp01_le_one _

theorem processHit_eq_some {db : List TmdbMeta} {accessible exclude : List ℤ}
    {inLibraryOnly : Bool} {profile : Profile} {filters : Option Filters}
    {hit : ChromaHit} {r : Recommendation}
    (h : processHit db accessible exclude inLibraryOnly profile filters hit = some r) :
    ∃ id t, hit.tmdbId = some id ∧ lookupMeta db id = some t ∧
      (∀ f, filters = some f → passesFilters t f = true) ∧
      r.score = pyRound 4 (combinedScore (max 0 (1 - hit.distance)) (genreBoostOf t profile)
        (popFactorOf t) (antiPenaltyOf t profile)) ∧
      r.genres = t.genres ∧ r.year = t.year ∧ r.originalLanguage = t.originalLanguage ∧
      r.inLibrary = accessible.contains id := by
  unfold processHit at h
  cases hid : hit.tmdbId with
  | none => rw [hid] at h; exact absurd h (by simp)
  | some id =>
    rw [hid] at h
    dsimp only at h
    by_cases h0 : id = 0
    · rw [if_pos h0] at h; exact absurd h (by simp)
    · rw [if_neg h0] at h
      by_cases hex : exclude.contains id = true
      · rw [if_pos hex] at h; exact absurd h (by simp)
      · rw [if_neg hex] at h
        by_cases hlib : (inLibraryOnly = true ∧ ¬ accessible.contains id = true)
        · rw [if_pos hlib] at h; exact absurd h (by simp)
        · rw [if_neg hlib] at h
          cases ht : lookupMeta db id with
          | none => rw [ht] at h; exact absurd h (by simp)
          | some t =>
            rw [ht] at h
            dsimp only at h
            split_ifs at h with hkeep
            · have hr := Option.some.inj h
              subst hr
              refine ⟨id, t, rfl, ht, ?_, rfl, rfl, rfl, rfl, rfl⟩
              intro f hf
              rw [hf] at hkeep
              exact hkeep

theorem mem_processResults {hits : List ChromaHit} {db : List TmdbMeta}
    {accessible exclude : List ℤ} {inLibraryOnly : Bool} {profile : Profile}
    {filters : Option Filters} {r : Recommendation}
    (h : r ∈ processResults hits db accessible exclude inLibraryOnly profile filters) :
    ∃ hit ∈ hits, processHit db accessible exclude inLibraryOnly profile filters hit = some r := by
  unfold processResults at h
  exact List.mem_filterMap.mp (mem_sortByLe.mp h)

/-- C1 as amended: every Recommendation the scoring pipeline emits carries
the combined score `similarity*0.6 + genre_boost*0.25 + popularity*0.05 -
anti_penalty*0.10` of its source hit, clamped to the unit interval and then
rounded to 4 decimal places by `_tmdb_to_recommendation`; in particular the
emitted score always lies in `[0, 1]`. -/
theorem c1_score_amended (hits : List ChromaHit) (db : List TmdbMeta)
    (accessible exclude : List ℤ) (inLibraryOnly : Bool) (profile : Profile)
    (filters : Option Filters) :
    ∀ r ∈ processResults hits db accessible exclude inLibraryOnly profile filters,
      (0 ≤ r.score ∧ r.score ≤ 1) ∧
      ∃ hit ∈ hits, ∃ id t, hit.tmdbId = some id ∧ lookupMeta db id = some t ∧
        r.score = pyRound 4 (combinedScore (max 0 (1 - hit.distance))
          (genreBoostOf t profile) (popFactorOf t) (antiPenaltyOf t profile)) := by
  intro r hr
  obtain ⟨hit, hhit, hsome⟩ := mem_processResults hr
  obtain ⟨id, t, hid, ht, _, hscore, _⟩ := processHit_eq_some hsome
  refine ⟨?_, hit, hhit, id, t, hid, ht, hscore⟩
  rw [hscore]
  exact pyRound_mem_unit (combinedScore_nonneg _ _ _ _) (combinedScore_le_one _ _ _ _)

theorem c1_eval :
    processResults [⟨some 1, 99997/100000⟩] [exMetaPlain] [1] [] false emptyProfile none =
      [c1Rec] := by
  simp [processResults, processHit, lookupMeta, sortByLe, insertLe, tmdbToRecommendation,
    combinedScore, clamp01, exMetaPlain, genreBoostOf, antiPenaltyOf, popFactorOf, emptyProfile,
    pyRound, roundHalfEven, emptySignals, c1Rec] <;> norm_num [Int.fract]

/-- C1 counterexample: a candidate at cosine distance 0.99997 in an
otherwise empty profile has combined clamped score 0.000018, but the
Recommendation the pipeline emits carries score 0, because
`_tmdb_to_recommendation` rounds to 4 decimal places; so the emitted score
does not equal the clamped combination. -/
theorem c1_counterexample :
    (processResults [⟨some 1, 99997/100000⟩] [exMetaPlain] [1] [] false emptyProfile none).map
      (fun r => r.score) = [0] ∧
    combinedScore (max 0 (1 - 99997/100000)) (genreBoostOf exMetaPlain emptyProfile)
      (popFactorOf exMetaPlain) (antiPenaltyOf exMetaPlain emptyProfile) = 9/500000 ∧
    (0 : ℚ) ≠ 9/500000 := by
  refine ⟨by rw [c1_eval]; rfl, ?_, by norm_num⟩
  simp [combinedScore, clamp01, exMetaPlain, genreBoostOf, antiPenaltyOf, popFactorOf,
    emptyProfile] <;> norm_num

/-- Witness for the amended C1 theorem on the one-candidate input. -/
theorem c1_witness :
    c1Rec ∈ processResults [⟨some 1, 99997/100000⟩] [exMetaPlain] [1] [] false emptyProfile none ∧
    0 ≤ c1Rec.score ∧ c1Rec.score ≤ 1 := by
  have hmem : c1Rec ∈
      processResults [⟨some 1, 99997/100000⟩] [exMetaPlain] [1] [] false emptyProfile none := by
    rw [c1_eval]; simp
  have h := (c1_score_amended [⟨some 1, 99997/100000⟩] [exMetaPlain] [1] [] false emptyProfile
    none _ hmem).1
  exact ⟨hmem, h.1, h.2⟩

end Recommendarr

namespace Recommendarr

/-- C10 counterexample: with the hard filter requiring the genre Action,
the pipeline still returns the candidate whose genre list is empty, because
`_passes_filters` guards every check behind the truthiness of the candidate
attribute (`if "genres" in filters and tmdb.genres:`): the returned item has
no genre from the required list. -/
theorem c10_counterexample :
    (processResults [⟨some 1, 99997/100000⟩] [exMetaPlain] [1] [] false emptyProfile
        (some c10Filters)).map (fun r => r.genres) = [[]] ∧
    ¬ ∃ g ∈ ["Action"], g ∈ ([] : List String) := by
  constructor
  · simp [processResults, processHit, lookupMeta, sortByLe, insertLe, tmdbToRecommendation,
      combinedScore, clamp01, exMetaPlain, genreBoostOf, antiPenaltyOf, popFactorOf,
      emptyProfile, pyRound, roundHalfEven, emptySignals, passesFilters, c10Filters] <;>
      norm_num [Int.fract]
  · simp

/-- C10 as amended: every Recommendation returned under supplied filters
satisfies each filter conditionally on the candidate attribute being
present and truthy: a required-genres overlap and an exclude-genres
disjointness only when the candidate genre list is nonempty, the year
bounds only when the year is present and nonzero, and the language
equality only when the original language is present and nonempty. -/
theorem c10_filters_amended (hits : List ChromaHit) (db : List TmdbMeta)
    (accessible exclude : List ℤ) (inLibraryOnly : Bool) (profile : Profile) (f : Filters) :
    ∀ r ∈ processResults hits db accessible exclude inLibraryOnly profile (some f),
      (∀ req, f.genres = some req → ¬ r.genres.isEmpty → ∃ g ∈ req, g ∈ r.genres) ∧
      (∀ exg, f.excludeGenres = some exg → ¬ r.genres.isEmpty → ∀ g ∈ exg, g ∉ r.genres) ∧
      (∀ y ty, f.yearMin = some y → r.year = some ty → ty ≠ 0 → y ≤ ty) ∧
      (∀ y ty, f.yearMax = some y → r.year = some ty → ty ≠ 0 → ty ≤ y) ∧
      (∀ lang l, f.language = some lang → r.originalLanguage = some l → l ≠ "" → l = lang) := by
  intro r hr
  obtain ⟨hit, hhit, hsome⟩ := mem_processResults hr
  obtain ⟨id, t, hid, ht, hfil, hscore, hgen, hyear, hlang, hlib⟩ := processHit_eq_some hsome
  have hpf := hfil f rfl
  unfold passesFilters at hpf
  simp only [Bool.and_eq_true] at hpf
  obtain ⟨⟨⟨⟨hg, hx⟩, hymin⟩, hymax⟩, hl⟩ := hpf
  rw [hgen, hyear, hlang]
  refine ⟨?_, ?_, ?_, ?_, ?_⟩
  · intro req hreq hne
    rw [hreq] at hg
    dsimp only at hg
    rw [if_neg hne] at hg
    simpa using hg
  · intro exg hexg hne
    rw [hexg] at hx
    dsimp only at hx
    rw [if_neg hne] at hx
    simpa using hx
  · intro y ty hy hty ht0
    rw [hy, hty] at hymin
    dsimp only at hymin
    rw [if_neg ht0] at hymin
    exact of_decide_eq_true hymin
  · intro y ty hy hty ht0
    rw [hy, hty] at hymax
    dsimp only at hymax
    rw [if_neg ht0] at hymax
    exact of_decide_eq_true hymax
  · intro lang l hlg hol hne
    rw [hlg, hol] at hl
    dsimp only at hl
    rw [if_neg hne] at hl
    simpa using hl

theorem c10_eval :
    processResults [⟨some 3, 1/2⟩] [exMetaAction] [3] [] false emptyProfile (some c10Filters) =
      [c10Rec] := by
  simp [processResults, processHit, lookupMeta, sortByLe, insertLe, tmdbToRecommendation,
    combinedScore, clamp01, exMetaAction, genreBoostOf, antiPenaltyOf, popFactorOf,
    emptyProfile, pyRound, roundHalfEven, emptySignals, passesFilters, c10Filters, c10Rec] <;>
    norm_num [Int.fract]

/-- Witness for the amended C10 theorem: an Action candidate returned under
the Action-requiring filter does overlap the required genres. -/
theorem c10_witness :
    c10Rec ∈ processResults [⟨some 3, 1/2⟩] [exMetaAction] [3] [] false emptyProfile
      (some c10Filters) ∧
    ∃ g ∈ ["Action"], g ∈ c10Rec.genres := by
  have hmem : c10Rec ∈ processResults [⟨some 3, 1/2⟩] [exMetaAction] [3] [] false emptyProfile
      (some c10Filters) := by
    rw [c10_eval]; simp
  have h := (c10_filters_amended [⟨some 3, 1/2⟩] [exMetaAction] [3] [] false emptyProfile
    c10Filters c10Rec hmem).1 ["Action"] rfl (by simp [c10Rec])
  exact ⟨hmem, h⟩

end Recommendarr

namespace Recommendarr

/-- C5: the code is wrong and the claim describes the intent. The first
conjunct evaluates `recommend_rediscover` as written at a concrete input:
it raises a NameError (the module never imports `datetime`, and `timezone`
is bound by a function-local import only on the line after its first use),
so no item is ever returned. The remaining conjuncts prove the claimed
filtering for the algorithm the body describes: every returned item comes
from a row with completion at least 70, last watched at least 180 days
before `now`, with recomputed raw signal at least 3, scored at signal/10,
and the output is sorted descending by score with no retrieval step. -/
theorem c5_rediscover_bug :
    recommendRediscoverRun c5History 34560000 10 =
      Except.error "NameError: name datetime is not defined" ∧
    (∀ (history : List (WatchHistory × TmdbMeta)) (now : ℤ) (limit : ℕ),
      ∀ r ∈ recommendRediscoverIntended history now limit,
      ∃ row ∈ history, (∃ c, row.1.completionPct = some c ∧ 70 ≤ c) ∧
        row.1.startedAt.getD row.1.createdAt ≤ now - 180 * 86400 ∧
        3 ≤ computeSignal row.1 none ∧
        r.score = pyRound 4 (computeSignal row.1 none / 10) ∧ r.mode = "rediscover") ∧
    (∀ (history : List (WatchHistory × TmdbMeta)) (now : ℤ) (limit : ℕ),
      (recommendRediscoverIntended history now limit).Pairwise
        (fun a b => b.score ≤ a.score)) := by
  refine ⟨rfl, ?_, ?_⟩
  · intro history now limit r hr
    unfold recommendRediscoverIntended at hr
    obtain ⟨r0, hr0, hmap⟩ := List.mem_map.mp hr
    have hr1 : r0 ∈ sortByLe (fun a b => decide (b.score ≤ a.score)) _ :=
      (List.take_sublist _ _).subset hr0
    have hr2 := mem_sortByLe.mp hr1
    obtain ⟨row, hrowq, hf⟩ := List.mem_filterMap.mp hr2
    have hrow : row ∈ List.filter _ history := mem_sortByLe.mp hrowq
    have hrowm := List.mem_of_mem_filter hrow
    have hpred := List.of_mem_filter hrow
    dsimp only at hf
    split_ifs at hf with hw hs
    have hval := Option.some.inj hf
    refine ⟨row, hrowm, ?_, ?_, ?_, ?_, ?_⟩
    · cases hc : row.1.completionPct with
      | none => rw [hc] at hpred; simp at hpred
      | some c =>
        rw [hc] at hpred
        exact ⟨c, rfl, by simpa using hpred⟩
    · push_neg at hw
      linarith [hw]
    · push_neg at hs
      linarith [hs]
    · rw [← hmap, ← hval]; rfl
    · rw [← hmap]
  · intro history now limit
    unfold recommendRediscoverIntended
    rw [List.pairwise_map]
    refine List.Pairwise.sublist (List.take_sublist _ _) ?_
    have htrans : ∀ (a b c : Recommendation),
        (fun (a b : Recommendation) => decide (b.score ≤ a.score)) a b = true →
        (fun (a b : Recommendation) => decide (b.score ≤ a.score)) b c = true →
        (fun (a b : Recommendation) => decide (b.score ≤ a.score)) a c = true := by
      intro a b c hab hbc
      simp only [decide_eq_true_eq] at *
      linarith
    have htotal : ∀ (a b : Recommendation),
        (fun (a b : Recommendation) => decide (b.score ≤ a.score)) a b = true ∨
        (fun (a b : Recommendation) => decide (b.score ≤ a.score)) b a = true := by
      intro a b
      simp only [decide_eq_true_eq]
      exact le_total b.score a.score
    exact (pairwise_sortByLe htrans htotal _).imp (fun hab => by simpa using hab)

theorem c5_eval :
    recommendRediscoverIntended c5History 34560000 5 = [c5Rec] := by
  have hq : rediscoverQuery c5History = c5History := by
    simp [rediscoverQuery, c5History, sortByLe, insertLe] <;> norm_num
  unfold recommendRediscoverIntended
  rw [hq]
  simp only [c5History, List.filterMap_cons, List.filterMap_nil]
  norm_num [computeSignal]
  simp [sortByLe, insertLe, tmdbToRecommendation, exMetaPlain, pyRound, roundHalfEven,
    emptySignals, c5Rec] <;> norm_num [Int.fract]

/-- Witness for the intended-rediscover part of the C5 theorem on the
concrete one-row history. -/
theorem c5_witness :
    c5Rec ∈ recommendRediscoverIntended c5History 34560000 5 ∧
    ∃ row ∈ c5History, (∃ c, row.1.completionPct = some c ∧ 70 ≤ c) ∧
      row.1.startedAt.getD row.1.createdAt ≤ 34560000 - 180 * 86400 ∧
      3 ≤ computeSignal row.1 none ∧
      c5Rec.score = pyRound 4 (computeSignal row.1 none / 10) ∧ c5Rec.mode = "rediscover" := by
  have hmem : c5Rec ∈ recommendRediscoverIntended c5History 34560000 5 := by
    rw [c5_eval]; simp
  exact ⟨hmem, c5_rediscover_bug.2.1 c5History 34560000 5 c5Rec hmem⟩

end Recommendarr

namespace Recommendarr

theorem pyRound_four_half : pyRound 4 (1/2) = 1/2 := by
  norm_num [pyRound, roundHalfEven, Int.fract]

theorem coldStartLoop_mem {filters : Option Filters} :
    ∀ (ts : List TmdbMeta) (limit n : ℕ) (r : Recommendation),
      r ∈ coldStartLoop filters limit ts n → ∃ t ∈ ts, r = mkColdRec t := by
  intro ts
  induction ts with
  | nil => intro limit n r hr; simp [coldStartLoop] at hr
  | cons t ts ih =>
    intro limit n r hr
    simp only [coldStartLoop] at hr
    split_ifs at hr with hskip hstop
    · obtain ⟨t2, ht2, hre⟩ := ih limit n r hr
      exact ⟨t2, List.mem_cons_of_mem _ ht2, hre⟩
    · have hre := List.mem_singleton.mp hr
      exact ⟨t, by simp, hre⟩
    · rcases List.mem_cons.mp hr with rfl | hr2
      · exact ⟨t, by simp, rfl⟩
      · obtain ⟨t2, ht2, hre⟩ := ih limit (n+1) r hr2
        exact ⟨t2, List.mem_cons_of_mem _ ht2, hre⟩

theorem coldStartLoop_none_length :
    ∀ (ts : List TmdbMeta) (limit n : ℕ), n < limit → limit - n ≤ ts.length →
      (coldStartLoop none limit ts n).length = limit - n := by
  intro ts
  induction ts with
  | nil =>
    intro limit n hn hlen
    simp at hlen
    omega
  | cons t ts ih =>
    intro limit n hn hlen
    simp only [coldStartLoop]
    rw [if_neg (by simp)]
    simp only [List.length_cons]
    by_cases hl : n + 1 ≥ limit
    · rw [if_pos hl]
      simp only [List.length_nil]
      omega
    · rw [if_neg hl]
      rw [ih limit (n+1) (by omega) (by simp only [List.length_cons] at hlen; omega)]
      omega

/-- C7: with zero WatchRecords, `recommend_tonight` equals the cold-start
popularity path (no profile signal, no vector build, no similarity query),
returns exactly `limit` items when at least that many rated rows exist,
each with score 0.5, `in_library` forced true, mode `tonight` and the
`cold_start_popularity` method marker; and `recommend_grab` for the same
user returns the empty sequence for any limit and filters. -/
theorem c7_cold_start (env : Env) (feedback : ℤ → Option String) (overrides : List Override)
    (h5 : 5 ≤ (env.db.filter (fun t => t.voteAverage.isSome)).length) :
    recommendTonight env [] feedback overrides 5 none =
      coldStartRecommendations env.db 5 none ∧
    (recommendTonight env [] feedback overrides 5 none).length = 5 ∧
    (∀ r ∈ recommendTonight env [] feedback overrides 5 none,
      r.score = 1/2 ∧ r.inLibrary = true ∧ r.signals.method = some "cold_start_popularity" ∧
      r.mode = "tonight") ∧
    (∀ (limit : ℕ) (filters : Option Filters),
      recommendGrab env [] feedback overrides limit filters = []) ∧
    (buildProfile [] feedback overrides).stats.totalWatches = 0 := by
  have hempty : buildProfile [] feedback overrides = emptyProfile := by
    simp [buildProfile]
  have htonight : recommendTonight env [] feedback overrides 5 none =
      coldStartRecommendations env.db 5 none := by
    unfold recommendTonight
    rw [hempty]
    rfl
  refine ⟨htonight, ?_, ?_, ?_, by rw [hempty]; rfl⟩
  · rw [htonight]
    unfold coldStartRecommendations
    rw [coldStartLoop_none_length _ 5 0 (by norm_num) ?_]
    rw [List.length_take]
    omega
  · intro r hr
    rw [htonight] at hr
    obtain ⟨t, _, rfl⟩ := coldStartLoop_mem _ 5 0 r hr
    exact ⟨pyRound_four_half, rfl, rfl, rfl⟩
  · intro limit filters
    unfold recommendGrab
    rw [hempty]
    rfl

/-- Witness for the C7 theorem on the concrete six-row popularity cache. -/
theorem c7_witness :
    (recommendTonight c7Env [] (fun _ => none) [] 5 none).length = 5 ∧
    recommendGrab c7Env [] (fun _ => none) [] 7 none = [] ∧
    (buildProfile [] (fun _ => (none : Option String)) []).stats.totalWatches = 0 := by
  have h := c7_cold_start c7Env (fun _ => none) [] (by simp [c7Env, c7Db])
  exact ⟨h.2.1, h.2.2.2.1 7 none, h.2.2.2.2⟩

end Recommendarr

namespace Recommendarr

theorem foldl_addVal_forall {P : ℚ → Prop} {v : ℚ} (hv : P v) (hadd : ∀ a, P a → P (a + v)) :
    ∀ (keys : List String) (m : AMap), (∀ p ∈ m, P p.2) →
      ∀ p ∈ keys.foldl (fun m k => addVal m k v) m, P p.2 := by
  intro keys
  induction keys with
  | nil => intro m hm; exact hm
  | cons k ks ih => intro m hm; exact ih _ (addVal_forall hm hv hadd)

theorem accumulateWatch_nonneg (feedback : ℤ → Option String) (P : Pools) (w : EnrichedWatch)
    (h : (∀ p ∈ P.genreScores, 0 ≤ p.2) ∧ (∀ p ∈ P.antiGenres, 0 ≤ p.2) ∧
      (∀ p ∈ P.keywordScores, 0 ≤ p.2)) :
    (∀ p ∈ (accumulateWatch feedback P w).genreScores, 0 ≤ p.2) ∧
    (∀ p ∈ (accumulateWatch feedback P w).antiGenres, 0 ≤ p.2) ∧
    (∀ p ∈ (accumulateWatch feedback P w).keywordScores, 0 ≤ p.2) := by
  obtain ⟨hg, ha, hk⟩ := h
  unfold accumulateWatch
  by_cases hs : computeSignal w.history (feedback w.tmdb.tmdbId) * w.decay > 0
  · simp only [if_pos hs]
    refine ⟨?_, ha, ?_⟩
    · exact foldl_addVal_forall (le_of_lt hs) (fun a hga => add_nonneg hga (le_of_lt hs))
        _ _ hg
    · exact foldl_addVal_forall (by positivity) (fun a hka => add_nonneg hka (by positivity))
        _ _ hk
  · simp only [if_neg hs]
    refine ⟨hg, ?_, hk⟩
    exact foldl_addVal_forall (abs_nonneg _) (fun a haa => add_nonneg haa (abs_nonneg _)) _ _ ha

theorem pools_nonneg (feedback : ℤ → Option String) (watches : List EnrichedWatch) :
    (∀ p ∈ (watches.foldl (accumulateWatch feedback) initPools).genreScores, 0 ≤ p.2) ∧
    (∀ p ∈ (watches.foldl (accumulateWatch feedback) initPools).antiGenres, 0 ≤ p.2) ∧
    (∀ p ∈ (watches.foldl (accumulateWatch feedback) initPools).keywordScores, 0 ≤ p.2) := by
  refine @foldl_preserve EnrichedWatch Pools
    (fun P => (∀ p ∈ P.genreScores, 0 ≤ p.2) ∧ (∀ p ∈ P.antiGenres, 0 ≤ p.2) ∧
      (∀ p ∈ P.keywordScores, 0 ≤ p.2))
    (accumulateWatch feedback)
    (fun P w hP => accumulateWatch_nonneg feedback P w hP) watches initPools ?_
  exact ⟨by simp [initPools], by simp [initPools], by simp [initPools]⟩

theorem genreAffPre_bounds (P : Pools)
    (hg : ∀ p ∈ P.genreScores, 0 ≤ p.2) (ha : ∀ p ∈ P.antiGenres, 0 ≤ p.2) :
    ∀ p ∈ genreAffPre P, -1 ≤ p.2 ∧ p.2 ≤ 1 := by
  intro p hp
  obtain ⟨g, _, rfl⟩ := List.mem_map.mp hp
  have hM1 : 1 ≤ maxGenreOf P := by
    unfold maxGenreOf
    exact le_trans (le_max_right _ _) (le_max_right _ _)
  have hM0 : 0 < maxGenreOf P := lt_of_lt_of_le one_pos hM1
  have hpos0 : 0 ≤ getVal P.genreScores g := getVal_nonneg hg
  have hneg0 : 0 ≤ getVal P.antiGenres g := getVal_nonneg ha
  have hposM : getVal P.genreScores g ≤ maxGenreOf P :=
    le_trans (getVal_le_listMax zero_le_one hg) (le_max_left _ _)
  have hnegM : getVal P.antiGenres g ≤ maxGenreOf P :=
    le_trans (getVal_le_listMax zero_le_one ha)
      (le_trans (le_max_left _ _) (le_max_right _ _))
  refine pyRound_mem_Icc ?_ ?_
  · rw [le_div_iff₀ hM0]; linarith
  · rw [div_le_one hM0]; linarith

theorem getVal_bounds {m : AMap} {k : String} (hm : ∀ p ∈ m, -1 ≤ p.2 ∧ p.2 ≤ 1) :
    -1 ≤ getVal m k ∧ getVal m k ≤ 1 := by
  rcases getVal_mem_or_zero m k with ⟨p, hp, _, hv⟩ | hz
  · rw [← hv]; exact hm p hp
  · rw [hz]; norm_num

theorem applyOverride_bounds {m : AMap} {o : Override}
    (hm : ∀ p ∈ m, -1 ≤ p.2 ∧ p.2 ≤ 1)
    (hwm : ∀ w, o.weightModifier = some w → 0 ≤ w) :
    ∀ p ∈ applyOverride m o, -1 ≤ p.2 ∧ p.2 ≤ 1 := by
  have hw0 : 0 ≤ overrideWeight o := by
    unfold overrideWeight
    cases ho : o.weightModifier with
    | none => norm_num
    | some v =>
      by_cases hv0 : v = 0
      · simp only [if_pos hv0]
        norm_num
      · simp only [if_neg hv0]
        exact hwm v ho
  have hgv := getVal_bounds (k := o.influenceKey) hm
  unfold applyOverride
  split_ifs with hc hb hsup hbl
  · exact @setVal_forall (fun x => -1 ≤ x ∧ x ≤ 1) m o.influenceKey _ hm
      ⟨le_min (by norm_num) (by linarith), min_le_left _ _⟩
  · exact @setVal_forall (fun x => -1 ≤ x ∧ x ≤ 1) m o.influenceKey _ hm
      ⟨le_max_left _ _, max_le (by norm_num) (by linarith)⟩
  · exact @setVal_forall (fun x => -1 ≤ x ∧ x ≤ 1) m o.influenceKey _ hm (by norm_num)
  · exact hm
  · exact hm

theorem foldl_applyOverride_bounds :
    ∀ (overrides : List Override) (m : AMap),
      (∀ p ∈ m, -1 ≤ p.2 ∧ p.2 ≤ 1) →
      (∀ o ∈ overrides, ∀ w, o.weightModifier = some w → 0 ≤ w) →
      ∀ p ∈ overrides.foldl applyOverride m, -1 ≤ p.2 ∧ p.2 ≤ 1 := by
  intro overrides
  induction overrides with
  | nil => intro m hm _; exact hm
  | cons o os ih =>
    intro m hm hov
    exact ih _ (applyOverride_bounds hm (hov o (by simp)))
      (fun o2 ho2 => hov o2 (List.mem_cons_of_mem _ ho2))

theorem div_maxAbs_bounds {v M : ℚ} (h : |v| ≤ M) : -1 ≤ v / M ∧ v / M ≤ 1 := by
  by_cases hM : M = 0
  · have hv : v = 0 := abs_eq_zero.mp (le_antisymm (hM ▸ h) (abs_nonneg v))
    rw [hv, hM]
    norm_num
  · have hM0 : 0 < M := lt_of_le_of_ne (le_trans (abs_nonneg v) h) (Ne.symm hM)
    have hab := abs_le.mp h
    constructor
    · rw [le_div_iff₀ hM0]; linarith
    · rw [div_le_one hM0]; linarith

theorem topAffinities_bounds (n : ℕ) (m : AMap) :
    ∀ p ∈ topAffinities n m, -1 ≤ p.2 ∧ p.2 ≤ 1 := by
  intro p hp
  obtain ⟨q, hq, rfl⟩ := List.mem_map.mp hp
  have hqm : q ∈ m := mem_sortByLe.mp ((List.take_sublist _ _).subset hq)
  have habs : |q.2| ≤ listMax 1 ((valsOf m).map (fun v => |v|)) := by
    refine le_listMax 1 ?_
    exact List.mem_map.mpr ⟨q.2, List.mem_map.mpr ⟨q, hqm, rfl⟩, rfl⟩
  exact pyRound_mem_Icc (div_maxAbs_bounds habs).1 (div_maxAbs_bounds habs).2

/-- C2: every affinity value of a built TasteProfile lies in `[-1, 1]`
(assuming the data-model constraint that override magnitudes are
non-negative), and an empty history yields the empty profile: all three
affinity mappings empty, empty anti-profile, and zero total watches. -/
theorem c2_profile_invariants (watches : List EnrichedWatch) (feedback : ℤ → Option String)
    (overrides : List Override)
    (hov : ∀ o ∈ overrides, ∀ w, o.weightModifier = some w → 0 ≤ w) :
    (∀ p ∈ (buildProfile watches feedback overrides).genreAffinities, -1 ≤ p.2 ∧ p.2 ≤ 1) ∧
    (∀ p ∈ (buildProfile watches feedback overrides).personnelAffinities,
      -1 ≤ p.2 ∧ p.2 ≤ 1) ∧
    (∀ p ∈ (buildProfile watches feedback overrides).keywordAffinities, -1 ≤ p.2 ∧ p.2 ≤ 1) ∧
    buildProfile [] feedback overrides = emptyProfile ∧
    (buildProfile [] feedback overrides).genreAffinities = [] ∧
    (buildProfile [] feedback overrides).personnelAffinities = [] ∧
    (buildProfile [] feedback overrides).keywordAffinities = [] ∧
    (buildProfile [] feedback overrides).antiProfile.genres = [] ∧
    (buildProfile [] feedback overrides).antiProfile.keywords = [] ∧
    (buildProfile [] feedback overrides).stats.totalWatches = 0 := by
  have hemp : buildProfile [] feedback overrides = emptyProfile := by simp [buildProfile]
  by_cases hne : watches.isEmpty
  · have h2 : buildProfile watches feedback overrides = emptyProfile := by
      unfold buildProfile
      rw [if_pos hne]
    rw [h2, hemp]
    refine ⟨?_, ?_, ?_, rfl, rfl, rfl, rfl, rfl, rfl, rfl⟩ <;> simp [emptyProfile]
  · have hP := pools_nonneg feedback watches
    have hgen : (buildProfile watches feedback overrides).genreAffinities =
        sortByLe byValDesc (overrides.foldl applyOverride
          (genreAffPre (watches.foldl (accumulateWatch feedback) initPools))) := by
      unfold buildProfile
      rw [if_neg hne]
    have hpers : (buildProfile watches feedback overrides).personnelAffinities =
        topAffinities 50 (watches.foldl (accumulateWatch feedback) initPools).personnelScores := by
      unfold buildProfile
      rw [if_neg hne]
    have hkw : (buildProfile watches feedback overrides).keywordAffinities =
        topAffinities 30 (watches.foldl (accumulateWatch feedback) initPools).keywordScores := by
      unfold buildProfile
      rw [if_neg hne]
    refine ⟨?_, ?_, ?_, hemp, by rw [hemp]; rfl, by rw [hemp]; rfl, by rw [hemp]; rfl,
      by rw [hemp]; rfl, by rw [hemp]; rfl, by rw [hemp]; rfl⟩
    · intro p hp
      rw [hgen] at hp
      exact foldl_applyOverride_bounds overrides _
        (genreAffPre_bounds _ hP.1 hP.2.1) hov p (mem_sortByLe.mp hp)
    · intro p hp
      rw [hpers] at hp
      exact topAffinities_bounds 50 _ p hp
    · intro p hp
      rw [hkw] at hp
      exact topAffinities_bounds 30 _ p hp

/-- Witness for the C2 theorem: the profile built from one fully-watched
Action item has the affinity entry 1 for Action, which the theorem bounds
in `[-1, 1]`; the empty history yields the empty profile. -/
theorem c2_witness :
    ("Action", (1:ℚ)) ∈
      (buildProfile [exWatchAction] (fun _ => none) []).genreAffinities ∧
    (-1 ≤ (1:ℚ) ∧ (1:ℚ) ≤ 1) ∧
    buildProfile [] (fun _ => (none : Option String)) [] = emptyProfile := by
  have hmem : ("Action", (1:ℚ)) ∈
      (buildProfile [exWatchAction] (fun _ => none) []).genreAffinities := by
    simp [buildProfile, accumulateWatch, initPools, computeSignal, exWatchAction, exMetaAction,
      genreAffPre, genreKeysOf, maxGenreOf, addVal, getVal, valsOf, listMax, sortByLe, insertLe,
      byValDesc, pyRound, roundHalfEven] <;> norm_num [Int.fract]
  have h := c2_profile_invariants [exWatchAction] (fun _ => none) [] (by simp)
  exact ⟨hmem, h.1 ("Action", 1) hmem, h.2.2.2.1⟩

end Recommendarr

namespace Recommendarr

theorem hasKey_iff_mem_keys (m : AMap) (k : String) :
    hasKey m k = true ↔ k ∈ m.map Prod.fst := by
  unfold hasKey
  rw [List.find?_isSome]
  constructor
  · rintro ⟨p, hp, hbeq⟩
    exact List.mem_map.mpr ⟨p, hp, by simpa using hbeq⟩
  · intro hmem
    obtain ⟨p, hp, rfl⟩ := List.mem_map.mp hmem
    exact ⟨p, hp, by simp⟩

theorem keys_setVal (m : AMap) (k2 : String) (v : ℚ) :
    (setVal m k2 v).map Prod.fst = m.map Prod.fst := by
  induction m with
  | nil => rfl
  | cons p rest ih =>
    by_cases hpk : p.1 = k2
    · simp [setVal, if_pos hpk, hpk]
    · simp [setVal, if_neg hpk, ih]

theorem hasKey_setVal_iff (m : AMap) (k2 k : String) (v : ℚ) :
    hasKey (setVal m k2 v) k = true ↔ hasKey m k = true := by
  rw [hasKey_iff_mem_keys, hasKey_iff_mem_keys, keys_setVal]

theorem getVal_setVal_same : ∀ (m : AMap) (k : String) (v : ℚ),
    hasKey m k = true → getVal (setVal m k v) k = v := by
  intro m
  induction m with
  | nil => intro k v hk; simp [hasKey] at hk
  | cons p rest ih =>
    intro k v hk
    by_cases hpk : p.1 = k
    · simp only [setVal, if_pos hpk, getVal]
      rw [@List.find?_cons_of_pos (String × ℚ) (fun q => q.1 == k) (k, v) rest (by simp)]
      rfl
    · have hk2 : hasKey rest k = true := by
        unfold hasKey at hk ⊢
        rwa [@List.find?_cons_of_neg (String × ℚ) (fun q => q.1 == k) p rest
          (by simpa using hpk)] at hk
      simp only [setVal, if_neg hpk, getVal]
      rw [@List.find?_cons_of_neg (String × ℚ) (fun q => q.1 == k) p (setVal rest k v)
        (by simpa using hpk)]
      exact ih k v hk2

theorem getVal_setVal_ne : ∀ (m : AMap) (k2 k : String) (v : ℚ), k2 ≠ k →
    getVal (setVal m k2 v) k = getVal m k := by
  intro m
  induction m with
  | nil => intro k2 k v _; rfl
  | cons p rest ih =>
    intro k2 k v hne
    by_cases hpk : p.1 = k2
    · simp only [setVal, if_pos hpk, getVal]
      rw [@List.find?_cons_of_neg (String × ℚ) (fun q => q.1 == k) (k2, v) rest
        (by simpa using hne),
        @List.find?_cons_of_neg (String × ℚ) (fun q => q.1 == k) p rest
        (by simpa [hpk] using hne)]
    · simp only [setVal, if_neg hpk, getVal]
      by_cases hpk2 : p.1 = k
      · rw [@List.find?_cons_of_pos (String × ℚ) (fun q => q.1 == k) p (setVal rest k2 v)
          (by simp [hpk2]),
          @List.find?_cons_of_pos (String × ℚ) (fun q => q.1 == k) p rest (by simp [hpk2])]
      · rw [@List.find?_cons_of_neg (String × ℚ) (fun q => q.1 == k) p (setVal rest k2 v)
          (by simpa using hpk2),
          @List.find?_cons_of_neg (String × ℚ) (fun q => q.1 == k) p rest
          (by simpa using hpk2)]
        exact ih k2 k v hne

theorem applyOverride_block (m : AMap) (o : Override)
    (htype : o.influenceType = "genre") (hact : o.action = "block")
    (hk : hasKey m o.influenceKey = true) :
    getVal (applyOverride m o) o.influenceKey = -1 := by
  unfold applyOverride
  rw [if_pos ⟨htype, hk⟩, if_neg (by rw [hact]; simp), if_neg (by rw [hact]; simp), if_pos hact]
  exact getVal_setVal_same m o.influenceKey (-1) hk

theorem applyOverride_absent (m : AMap) (o : Override)
    (hk : hasKey m o.influenceKey = false) : applyOverride m o = m := by
  unfold applyOverride
  rw [if_neg (by simp [hk])]

theorem applyOverride_getVal_ne (m : AMap) (o : Override) (k : String)
    (hne : o.influenceKey ≠ k) : getVal (applyOverride m o) k = getVal m k := by
  unfold applyOverride
  split_ifs <;> first | rfl | exact getVal_setVal_ne m o.influenceKey k _ hne

theorem hasKey_applyOverride (m : AMap) (o : Override) (k : String) :
    hasKey (applyOverride m o) k = true ↔ hasKey m k = true := by
  unfold applyOverride
  split_ifs <;> first | exact Iff.rfl | exact hasKey_setVal_iff m o.influenceKey k _

theorem foldl_applyOverride_block (k : String) :
    ∀ (os : List Override) (m : AMap),
      hasKey m k = true →
      (∀ o ∈ os, o.influenceKey = k → o.influenceType = "genre" ∧ o.action = "block") →
      ((∃ o ∈ os, o.influenceKey = k) ∨ getVal m k = -1) →
      getVal (os.foldl applyOverride m) k = -1 ∧
      hasKey (os.foldl applyOverride m) k = true := by
  intro os
  induction os with
  | nil =>
    intro m hk _ hex
    rcases hex with ⟨o, ho, _⟩ | hv
    · simp at ho
    · exact ⟨hv, hk⟩
  | cons o os ih =>
    intro m hk hall hex
    simp only [List.foldl_cons]
    by_cases hko : o.influenceKey = k
    · obtain ⟨htype, hact⟩ := hall o (by simp) hko
      have h1 : getVal (applyOverride m o) k = -1 := by
        rw [← hko]
        exact applyOverride_block m o htype hact (by rw [hko]; exact hk)
      exact ih (applyOverride m o) ((hasKey_applyOverride m o k).mpr hk)
        (fun o2 ho2 => hall o2 (List.mem_cons_of_mem _ ho2)) (Or.inr h1)
    · have hpres : getVal (applyOverride m o) k = getVal m k := applyOverride_getVal_ne m o k hko
      refine ih (applyOverride m o) ((hasKey_applyOverride m o k).mpr hk)
        (fun o2 ho2 => hall o2 (List.mem_cons_of_mem _ ho2)) ?_
      rcases hex with ⟨o2, ho2, hko2⟩ | hv
      · rcases List.mem_cons.mp ho2 with rfl | ho2t
        · exact absurd hko2 hko
        · exact Or.inl ⟨o2, ho2t, hko2⟩
      · exact Or.inr (hpres ▸ hv)

theorem mem_keys_addVal (m : AMap) (k : String) (v : ℚ) (k2 : String) :
    k2 ∈ (addVal m k v).map Prod.fst ↔ k2 ∈ m.map Prod.fst ∨ k2 = k := by
  induction m with
  | nil => simp [addVal]
  | cons p rest ih =>
    by_cases hpk : p.1 = k
    · simp only [addVal, if_pos hpk, List.map_cons, List.mem_cons]
      constructor
      · rintro (h | h)
        · exact Or.inl (Or.inl h)
        · exact Or.inl (Or.inr h)
      · rintro ((h | h) | h)
        · exact Or.inl h
        · exact Or.inr h
        · rw [hpk] at *; exact Or.inl h
    · simp only [addVal, if_neg hpk, List.map_cons, List.mem_cons, ih]
      tauto

theorem hasKey_foldl_addVal (v : ℚ) :
    ∀ (keys : List String) (m : AMap) (k : String),
      (k ∈ keys ∨ hasKey m k = true) →
      hasKey (keys.foldl (fun m g => addVal m g v) m) k = true := by
  intro keys
  induction keys with
  | nil =>
    intro m k h
    rcases h with h | h
    · simp at h
    · exact h
  | cons g gs ih =>
    intro m k h
    simp only [List.foldl_cons]
    apply ih (addVal m g v) k
    rcases h with h | h
    · rcases List.mem_cons.mp h with rfl | h2
      · exact Or.inr ((hasKey_iff_mem_keys _ _).mpr ((mem_keys_addVal m k v k).mpr (Or.inr rfl)))
      · exact Or.inl h2
    · exact Or.inr ((hasKey_iff_mem_keys _ _).mpr
        ((mem_keys_addVal m g v k).mpr (Or.inl ((hasKey_iff_mem_keys _ _).mp h))))

theorem accumulateWatch_genreKeys (feedback : ℤ → Option String) (P : Pools)
    (w : EnrichedWatch) (k : String)
    (h : k ∈ w.tmdb.genres ∨ hasKey P.genreScores k = true ∨ hasKey P.antiGenres k = true) :
    hasKey (accumulateWatch feedback P w).genreScores k = true ∨
    hasKey (accumulateWatch feedback P w).antiGenres k = true := by
  unfold accumulateWatch
  by_cases hs : computeSignal w.history (feedback w.tmdb.tmdbId) * w.decay > 0
  · simp only [if_pos hs]
    rcases h with hg | hg | hg
    · exact Or.inl (hasKey_foldl_addVal _ _ _ _ (Or.inl hg))
    · exact Or.inl (hasKey_foldl_addVal _ _ _ _ (Or.inr hg))
    · exact Or.inr hg
  · simp only [if_neg hs]
    rcases h with hg | hg | hg
    · exact Or.inr (hasKey_foldl_addVal _ _ _ _ (Or.inl hg))
    · exact Or.inl hg
    · exact Or.inr (hasKey_foldl_addVal _ _ _ _ (Or.inr hg))

theorem pools_genreKeys (feedback : ℤ → Option String) :
    ∀ (watches : List EnrichedWatch) (P : Pools) (k : String),
      ((∃ w ∈ watches, k ∈ w.tmdb.genres) ∨ hasKey P.genreScores k = true ∨
        hasKey P.antiGenres k = true) →
      hasKey ((watches.foldl (accumulateWatch feedback) P).genreScores) k = true ∨
      hasKey ((watches.foldl (accumulateWatch feedback) P).antiGenres) k = true := by
  intro watches
  induction watches with
  | nil =>
    intro P k h
    rcases h with ⟨w, hw, _⟩ | h | h
    · simp at hw
    · exact Or.inl h
    · exact Or.inr h
  | cons w ws ih =>
    intro P k h
    simp only [List.foldl_cons]
    apply ih (accumulateWatch feedback P w) k
    rcases h with ⟨w2, hw2, hkw⟩ | h | h
    · rcases List.mem_cons.mp hw2 with rfl | hw2t
      · rcases accumulateWatch_genreKeys feedback P w2 k (Or.inl hkw) with h1 | h1
        · exact Or.inr (Or.inl h1)
        · exact Or.inr (Or.inr h1)
      · exact Or.inl ⟨w2, hw2t, hkw⟩
    · rcases accumulateWatch_genreKeys feedback P w k (Or.inr (Or.inl h)) with h1 | h1
      · exact Or.inr (Or.inl h1)
      · exact Or.inr (Or.inr h1)
    · rcases accumulateWatch_genreKeys feedback P w k (Or.inr (Or.inr h)) with h1 | h1
      · exact Or.inr (Or.inl h1)
      · exact Or.inr (Or.inr h1)

theorem mem_genreKeysOf {P : Pools} {k : String}
    (h : hasKey P.genreScores k = true ∨ hasKey P.antiGenres k = true) :
    k ∈ genreKeysOf P := by
  unfold genreKeysOf
  by_cases hgs : k ∈ P.genreScores.map Prod.fst
  · exact List.mem_append_left _ hgs
  · rcases h with h | h
    · exact absurd ((hasKey_iff_mem_keys _ _).mp h) hgs
    · refine List.mem_append_right _ ?_
      refine List.mem_filter.mpr ⟨(hasKey_iff_mem_keys _ _).mp h, ?_⟩
      simpa using hgs

theorem hasKey_genreAffPre {P : Pools} {k : String} (h : k ∈ genreKeysOf P) :
    hasKey (genreAffPre P) k = true := by
  rw [hasKey_iff_mem_keys]
  unfold genreAffPre
  rw [List.map_map]
  simpa using h

theorem pair_mem_of_hasKey {m : AMap} {k : String} (h : hasKey m k = true) :
    (k, getVal m k) ∈ m := by
  unfold hasKey at h
  cases hf : m.find? (fun p => p.1 == k) with
  | none => rw [hf] at h; simp at h
  | some p =>
    have hp := List.mem_of_find?_eq_some hf
    have hk1 : p.1 = k := by simpa using List.find?_some hf
    have hv : getVal m k = p.2 := by unfold getVal; rw [hf]; rfl
    rw [hv, ← hk1]
    exact hp

end Recommendarr

namespace Recommendarr

/-- C6 counterexample. The history gives Action affinity 1 and Drama
affinity 0.4. A boost override on Drama with an explicit magnitude of 0
adds 0.3 (not 0), because `float(override.weight_modifier or 0.3)` treats 0
as unset; and a block override on Horror, a genre with no computed entry,
changes nothing: Horror gets no affinity entry (in particular not -1.0) and
does not enter the anti-profile genres, both contradicting the claim. -/
theorem c6_counterexample :
    getVal (genreAffPre (List.foldl (accumulateWatch (fun _ => none)) initPools
      [exWatchAction, exWatchDrama])) "Drama" = 2/5 ∧
    getVal (buildProfile [exWatchAction, exWatchDrama] (fun _ => none)
      c6Overrides).genreAffinities "Drama" = 7/10 ∧
    (7/10 : ℚ) ≠ 2/5 + 0 ∧
    hasKey (buildProfile [exWatchAction, exWatchDrama] (fun _ => none)
      c6Overrides).genreAffinities "Horror" = false ∧
    "Horror" ∉ (buildProfile [exWatchAction, exWatchDrama] (fun _ => none)
      c6Overrides).antiProfile.genres := by
  have hP : List.foldl (accumulateWatch (fun _ => none)) initPools
      [exWatchAction, exWatchDrama] =
      { genreScores := [("Action", 5), ("Drama", 2)], personnelScores := []
        keywordScores := [], antiGenres := [], antiKeywords := []
        totalSignal := 7, totalCompletion := 140 } := by
    simp [accumulateWatch, initPools, computeSignal, exWatchAction, exWatchDrama,
      exMetaAction, exMetaDrama, addVal] <;> norm_num
  have hpre : genreAffPre
      ({ genreScores := [("Action", 5), ("Drama", 2)], personnelScores := []
         keywordScores := [], antiGenres := [], antiKeywords := []
         totalSignal := 7, totalCompletion := 140 } : Pools) =
      [("Action", 1), ("Drama", 2/5)] := by
    simp [genreAffPre, genreKeysOf, maxGenreOf, valsOf, listMax, getVal, pyRound,
      roundHalfEven] <;> norm_num [Int.fract]
  have hfold : List.foldl applyOverride [("Action", (1:ℚ)), ("Drama", 2/5)] c6Overrides =
      [("Action", 1), ("Drama", 7/10)] := by
    simp [c6Overrides, applyOverride, overrideWeight, hasKey, getVal, setVal] <;> norm_num
  have hsort : sortByLe byValDesc [("Action", (1:ℚ)), ("Drama", 7/10)] =
      [("Action", 1), ("Drama", 7/10)] := by
    simp [sortByLe, insertLe, byValDesc] <;> norm_num
  have hne : ¬ ([exWatchAction, exWatchDrama] : List EnrichedWatch).isEmpty = true := by simp
  have hg : (buildProfile [exWatchAction, exWatchDrama] (fun _ => none)
      c6Overrides).genreAffinities = [("Action", 1), ("Drama", 7/10)] := by
    unfold buildProfile
    rw [if_neg hne]
    show sortByLe byValDesc (List.foldl applyOverride (genreAffPre _) _) = _
    rw [hP, hpre, hfold, hsort]
  have hanti : (buildProfile [exWatchAction, exWatchDrama] (fun _ => none)
      c6Overrides).antiProfile.genres = [] := by
    unfold buildProfile
    rw [if_neg hne]
    show antiGenresOf (List.foldl applyOverride (genreAffPre _) _) = _
    rw [hP, hpre, hfold]
    simp [antiGenresOf] <;> norm_num
  refine ⟨?_, ?_, by norm_num, ?_, ?_⟩
  · rw [hP, hpre]
    simp [getVal]
  · rw [hg]
    simp [getVal]
  · rw [hg]
    simp [hasKey]
  · rw [hanti]
    simp

/-- C6 as amended: on a genre with a computed affinity entry, block forces
the affinity to exactly -1.0, boost adds the override weight (the supplied
magnitude, except that a missing or zero magnitude falls back to the 0.3
default) capped at 1.0, and suppress subtracts it floored at -1.0;
overrides whose key has no computed entry are ignored. When a genre occurs
in the watched history and every override on it is a genre block, the built
profile carries the entry (genre, -1.0) and the genre is a member of
anti_profile.genres. -/
theorem c6_overrides_amended :
    (∀ (m : AMap) (k : String) (wm : Option ℚ), hasKey m k = true →
      getVal (applyOverride m ⟨"genre", k, "block", wm⟩) k = -1) ∧
    (∀ (m : AMap) (k : String) (w : ℚ), hasKey m k = true →
      getVal (applyOverride m ⟨"genre", k, "boost", some w⟩) k =
        min 1 (getVal m k + (if w = 0 then 3/10 else w))) ∧
    (∀ (m : AMap) (k : String) (w : ℚ), hasKey m k = true →
      getVal (applyOverride m ⟨"genre", k, "suppress", some w⟩) k =
        max (-1) (getVal m k - (if w = 0 then 3/10 else w))) ∧
    (∀ (m : AMap) (o : Override), hasKey m o.influenceKey = false →
      applyOverride m o = m) ∧
    (∀ (watches : List EnrichedWatch) (feedback : ℤ → Option String)
      (overrides : List Override) (k : String),
      (∀ o ∈ overrides, o.influenceKey = k →
        o.influenceType = "genre" ∧ o.action = "block") →
      (∃ o ∈ overrides, o.influenceType = "genre" ∧ o.influenceKey = k ∧
        o.action = "block") →
      (∃ w ∈ watches, k ∈ w.tmdb.genres) →
      (k, (-1 : ℚ)) ∈ (buildProfile watches feedback overrides).genreAffinities ∧
      k ∈ (buildProfile watches feedback overrides).antiProfile.genres) := by
  refine ⟨?_, ?_, ?_, ?_, ?_⟩
  · intro m k wm hk
    exact applyOverride_block m ⟨"genre", k, "block", wm⟩ rfl rfl hk
  · intro m k w hk
    unfold applyOverride
    rw [if_pos ⟨rfl, hk⟩, if_pos rfl]
    rw [getVal_setVal_same m k _ hk]
    rfl
  · intro m k w hk
    unfold applyOverride
    rw [if_pos ⟨rfl, hk⟩, if_neg (by simp), if_pos rfl]
    rw [getVal_setVal_same m k _ hk]
    rfl
  · intro m o hk
    exact applyOverride_absent m o hk
  · intro watches feedback overrides k hall hex hkw
    have hne : ¬ watches.isEmpty = true := by
      obtain ⟨w, hw, _⟩ := hkw
      cases watches with
      | nil => simp at hw
      | cons a l => simp
    have hgen : (buildProfile watches feedback overrides).genreAffinities =
        sortByLe byValDesc (overrides.foldl applyOverride
          (genreAffPre (watches.foldl (accumulateWatch feedback) initPools))) := by
      unfold buildProfile
      rw [if_neg hne]
    have hanti : (buildProfile watches feedback overrides).antiProfile.genres =
        antiGenresOf (overrides.foldl applyOverride
          (genreAffPre (watches.foldl (accumulateWatch feedback) initPools))) := by
      unfold buildProfile
      rw [if_neg hne]
    have hkey0 : hasKey (genreAffPre (watches.foldl (accumulateWatch feedback) initPools))
        k = true := by
      refine hasKey_genreAffPre (mem_genreKeysOf ?_)
      exact pools_genreKeys feedback watches initPools k (Or.inl hkw)
    have hex2 : ∃ o ∈ overrides, o.influenceKey = k := by
      obtain ⟨o, ho, _, hk2, _⟩ := hex
      exact ⟨o, ho, hk2⟩
    obtain ⟨hget, hhas⟩ := foldl_applyOverride_block k overrides _ hkey0
      (fun o ho hk2 => hall o ho hk2) (Or.inl hex2)
    have hpair : (k, (-1:ℚ)) ∈ overrides.foldl applyOverride
        (genreAffPre (watches.foldl (accumulateWatch feedback) initPools)) := by
      have hp := pair_mem_of_hasKey hhas
      rwa [hget] at hp
    constructor
    · rw [hgen]
      exact mem_sortByLe.mpr hpair
    · rw [hanti]
      unfold antiGenresOf
      exact List.mem_map.mpr ⟨(k, -1), List.mem_filter.mpr ⟨hpair, by norm_num⟩, rfl⟩

/-- Witness for the amended C6 theorem: a block on the watched genre Action
forces the entry (Action, -1) into the profile and Action into the
anti-profile genres; boost and suppress on a one-entry map. -/
theorem c6_witness :
    getVal (applyOverride [("Drama", 2/5)] ⟨"genre", "Drama", "block", none⟩) "Drama" = -1 ∧
    getVal (applyOverride [("Drama", 2/5)] ⟨"genre", "Drama", "boost", some (1/2)⟩) "Drama" =
      min 1 (getVal [("Drama", 2/5)] "Drama" + (if (1/2 : ℚ) = 0 then 3/10 else 1/2)) ∧
    ("Action", (-1 : ℚ)) ∈ (buildProfile [exWatchAction] (fun _ => none)
      [⟨"genre", "Action", "block", none⟩]).genreAffinities ∧
    "Action" ∈ (buildProfile [exWatchAction] (fun _ => none)
      [⟨"genre", "Action", "block", none⟩]).antiProfile.genres := by
  have hk : hasKey [("Drama", (2:ℚ)/5)] "Drama" = true := by simp [hasKey]
  have h5 := c6_overrides_amended.2.2.2.2 [exWatchAction] (fun _ => none)
    [⟨"genre", "Action", "block", none⟩] "Action"
    (by intro o ho hk2; simp at ho; simp [ho])
    ⟨⟨"genre", "Action", "block", none⟩, by simp⟩
    ⟨exWatchAction, by simp, by simp [exWatchAction, exMetaAction]⟩
  exact ⟨c6_overrides_amended.1 _ _ none hk, c6_overrides_amended.2.1 _ _ (1/2) hk,
    h5.1, h5.2⟩

end Recommendarr
